import Mathlib

/-!
Verification of the `astrbot_plugin_mathjax2image` document-transformation
pipeline against its natural-language specification.

The Python sources under `src/` are shallowly embedded as executable Lean
definitions:

* strings are `List Char` (wrapped in `String` at the interfaces), and
  Python's `str.replace` / `re.sub` scanning loops become structural
  (fuel-indexed) recursions so that every definition evaluates inside the
  kernel;
* Python floats are modelled as exact unnormalized rationals (`PyQ`).
  Overflow to infinity and binary rounding are outside the model; every
  numeric value exercised by a claim is an exactly representable dyadic
  rational, where the model and CPython agree.  Exceptions raised by the
  Python `math` functions (`ValueError`, `ZeroDivisionError`, `TypeError`,
  `OverflowError`) are modelled as `Except` errors.  The numeric values of
  the transcendental functions (`sin`, `log`, ...) are abstracted by
  placeholder values, since no claim depends on them — only their
  success/failure behaviour is modelled;
* Python exceptions are `Except` values; a `try/except` becomes a `match`.

Sections: generic string machinery, the rational model, the sandboxed
expression evaluator (`src/utils/safe_eval.py`), the TikZ plot converter
(`src/infrastructure/converter/tikz_plot_converter.py`), the Markdown
converter's protection step
(`src/infrastructure/converter/markdown_converter.py`), the LaTeX validator
(`src/infrastructure/validator/latex_validator.py`), the Mermaid converter
(`src/infrastructure/converter/mermaid_converter.py`) and a control-flow
model of the page renderer (`src/infrastructure/browser/page_renderer.py`).
All definitions come first, followed by the lemmas and the claim theorems.
-/

namespace MathJax2Image

/-! ### Generic string machinery -/

/-- Python's `str.isspace` character class (the ASCII part used here). -/
def pyIsSpaceB (c : Char) : Bool :=
  c = ' ' || c = '\t' || c = '\n' || c = '\r' || c = '\x0b' || c = '\x0c'

/-- Python's `\w` word-character class (ASCII fragment). -/
def isWordChar (c : Char) : Bool :=
  c.isAlphanum || c = '_'

/-- Python's `str.strip()` with no argument: drop whitespace on both ends. -/
def pyStripL (s : List Char) : List Char :=
  ((s.dropWhile pyIsSpaceB).reverse.dropWhile pyIsSpaceB).reverse

/-- `str.strip()` on `String`. -/
def pyStrip (s : String) : String :=
  String.mk (pyStripL s.data)

/-- Python's `str.strip(chars)`: drop the given characters on both ends. -/
def pyStripCharsL (cs : List Char) (s : List Char) : List Char :=
  ((s.dropWhile (cs.contains ·)).reverse.dropWhile (cs.contains ·)).reverse

/-- Python's `str.lower()` (ASCII fragment). -/
def pyLowerL (s : List Char) : List Char :=
  s.map Char.toLower

/-- Number of positions of `s` at which `t` occurs as a substring
(all positions are counted, including overlapping occurrences). -/
def countOccsAll : List Char → List Char → Nat
  | [], t => if t.isPrefixOf ([] : List Char) then 1 else 0
  | c :: rest, t => (if t.isPrefixOf (c :: rest) then 1 else 0) + countOccsAll rest t

/-- `t` occurs somewhere in `s` as a contiguous substring. -/
def Occurs (s t : List Char) : Prop :=
  ∃ a b, s = a ++ t ++ b

/-- Boolean substring test matching `Occurs`. -/
def occursB (s t : List Char) : Bool :=
  0 < countOccsAll s t

/-- Fuel-indexed core of Python's `str.replace`: scan left to right, replace
each (non-overlapping) occurrence of `pat`, continue after it.  The fuel is
always instantiated with `s.length`, which suffices whenever `pat ≠ []`. -/
def replAux (pat r : List Char) : Nat → List Char → List Char
  | 0, s => s
  | _ + 1, [] => []
  | fuel + 1, c :: rest =>
    if pat.isPrefixOf (c :: rest) then
      r ++ replAux pat r fuel ((c :: rest).drop pat.length)
    else
      c :: replAux pat r fuel rest

/-- Python's `str.replace(pat, r)` (on `List Char`).  For `pat = []` Python
would interleave `r` everywhere; that case never arises here and is mapped
to the identity. -/
def replaceAll (s pat r : List Char) : List Char :=
  if pat = [] then s else replAux pat r s.length s

/-- Python's `str.replace` on `String`. -/
def pyReplace (s pat r : String) : String :=
  String.mk (replaceAll s.data pat.data r.data)

/-! ### Exact rationals standing in for Python floats

`PyQ` is an unnormalized fraction `num / den` with `den` kept positive by
all the operations below.  No normalization happens during arithmetic, so
every operation is a plain kernel-reducible integer computation; printing
functions normalize explicitly with `Nat.gcd`. -/

structure PyQ where
  num : Int
  den : Int
  deriving DecidableEq, Repr

/-- Embed an integer. -/
def PyQ.ofInt (n : Int) : PyQ := ⟨n, 1⟩

/-- Value-level equality of fractions (`a/b = c/d` iff `a*d = c*b`). -/
def PyQ.eqv (x y : PyQ) : Bool := x.num * y.den = y.num * x.den

/-- Value-level strict order (dens are positive by construction). -/
def PyQ.ltB (x y : PyQ) : Bool := x.num * y.den < y.num * x.den

/-- Value-level non-strict order. -/
def PyQ.leB (x y : PyQ) : Bool := x.num * y.den ≤ y.num * x.den

def PyQ.add (x y : PyQ) : PyQ := ⟨x.num * y.den + y.num * x.den, x.den * y.den⟩

def PyQ.sub (x y : PyQ) : PyQ := ⟨x.num * y.den - y.num * x.den, x.den * y.den⟩

def PyQ.mul (x y : PyQ) : PyQ := ⟨x.num * y.num, x.den * y.den⟩

def PyQ.neg (x : PyQ) : PyQ := ⟨-x.num, x.den⟩

/-- Exact division; the caller checks for a zero divisor first. -/
def PyQ.divUnchecked (x y : PyQ) : PyQ :=
  if y.num < 0 then ⟨x.num * (-y.den), x.den * (-y.num)⟩
  else ⟨x.num * y.den, x.den * y.num⟩

/-- Floor of a fraction with positive denominator. -/
def PyQ.floorI (x : PyQ) : Int := Int.fdiv x.num x.den

/-- Ceiling of a fraction with positive denominator. -/
def PyQ.ceilI (x : PyQ) : Int := -(Int.fdiv (-x.num) x.den)

/-- Integer power with sign handling on the exponent.  The caller has
already excluded `0 ^ negative`. -/
def PyQ.powInt (x : PyQ) (e : Int) : PyQ :=
  match e with
  | .ofNat n => ⟨x.num ^ n, x.den ^ n⟩
  | .negSucc n => PyQ.divUnchecked ⟨1, 1⟩ ⟨x.num ^ (n + 1), x.den ^ (n + 1)⟩

/-- `x` is an integer value. -/
def PyQ.isIntB (x : PyQ) : Bool := x.num % x.den = 0

/-- Normalize a fraction with `Nat.gcd` (used only by the printers). -/
def PyQ.norm (x : PyQ) : Int × Int :=
  let g : Nat := Nat.gcd x.num.natAbs x.den.natAbs
  if g = 0 then (0, 1) else (x.num / (g : Int), x.den / (g : Int))

/-- Count and remove the factors `p` of `n` (fuel-indexed, `fuel = n`). -/
def stripFactorAux (p : Nat) : Nat → Nat → Nat × Nat
  | 0, n => (0, n)
  | fuel + 1, n =>
    if 2 ≤ p ∧ n % p = 0 ∧ 0 < n then
      let r := stripFactorAux p fuel (n / p)
      (r.1 + 1, r.2)
    else (0, n)

/-- Decimal representation of an integer. -/
def intRepr (n : Int) : String :=
  match n with
  | .ofNat m => toString m
  | .negSucc m => "-" ++ toString (m + 1)

/-- Left-pad a digit string with zeros to width `k`. -/
def padZeros (k : Nat) (s : List Char) : List Char :=
  List.replicate (k - s.length) '0' ++ s

/-- Drop trailing zeros of a fraction-digit string but keep at least one
digit. -/
def stripTrailingZeros (s : List Char) : List Char :=
  let r := s.reverse.dropWhile (· = '0')
  if r = [] then ['0'] else r.reverse

/-- Model of Python's `str(float)` on an exact rational.  For values whose
reduced denominator divides a power of ten this is the exact decimal
expansion (CPython prints the same digits for the floats arising in this
development, all of which are exact dyadics); other values are printed with
17 fractional digits, a documented abstraction of CPython's
shortest-roundtrip repr. -/
def pyFloatRepr (q : PyQ) : String :=
  let nd := q.norm
  let n := nd.1
  let d := nd.2
  if d = 1 then intRepr n ++ ".0"
  else
    let dn := d.natAbs
    let p2 := stripFactorAux 2 dn dn
    let p5 := stripFactorAux 5 p2.2 p2.2
    let sign := if n < 0 then "-" else ""
    if p5.2 = 1 then
      let k := max p2.1 p5.1
      let m := n.natAbs * ((10 : Nat) ^ k / dn)
      let ip := m / 10 ^ k
      let fp := stripTrailingZeros (padZeros k (toString (m % 10 ^ k)).data)
      sign ++ toString ip ++ "." ++ String.mk fp
    else
      let m := n.natAbs * 10 ^ 17 / dn
      let ip := m / 10 ^ 17
      let fp := stripTrailingZeros (padZeros 17 (toString (m % 10 ^ 17)).data)
      sign ++ toString ip ++ "." ++ String.mk fp

/-- Model of Python's fixed-point formatting `f"{x:.4f}"`: round the exact
value half-to-even to four decimal places. -/
def format4 (q : PyQ) : String :=
  let sign := if q.num < 0 then "-" else ""
  let tn := q.num.natAbs * 10000
  let td := q.den.natAbs
  let k0 := tn / td
  let r2 := 2 * (tn % td)
  let k := if r2 > td then k0 + 1 else if r2 < td then k0 else
    (if k0 % 2 = 0 then k0 else k0 + 1)
  sign ++ toString (k / 10000) ++ "." ++ String.mk (padZeros 4 (toString (k % 10000)).data)

/-- Numeric value of a decimal digit string. -/
def digitsToNat (s : List Char) : Nat :=
  s.foldl (fun acc c => acc * 10 + (c.toNat - 48)) 0

/-- Model of Python's `float(str)` for plain decimal literals
(`[+-]? digits [. digits] [eE [+-] digits]`, surrounded by optional
whitespace).  Returns `none` where CPython's `float()` raises
`ValueError`. -/
def pyFloatOfString (s : String) : Option PyQ :=
  let l0 := (s.data.dropWhile pyIsSpaceB).reverse
  let l1 := (l0.dropWhile pyIsSpaceB).reverse
  let signAndRest : Int × List Char :=
    match l1 with
    | '-' :: r => (-1, r)
    | '+' :: r => (1, r)
    | r => (1, r)
  let sgn := signAndRest.1
  let r0 := signAndRest.2
  let ipart := r0.takeWhile Char.isDigit
  let r1 := r0.dropWhile Char.isDigit
  let hasDot := match r1 with | '.' :: _ => true | _ => false
  let r2 := if hasDot then r1.drop 1 else r1
  let fpart := r2.takeWhile Char.isDigit
  let r3 := r2.dropWhile Char.isDigit
  if ipart = [] ∧ fpart = [] then none
  else
    let mant : Int := sgn * (digitsToNat (ipart ++ fpart) : Int)
    let den : Int := (10 : Int) ^ fpart.length
    match r3 with
    | [] => some ⟨mant, den⟩
    | e :: r4 =>
      if e = 'e' ∨ e = 'E' then
        let es : Int × List Char :=
          match r4 with
          | '-' :: r => (-1, r)
          | '+' :: r => (1, r)
          | r => (1, r)
        let edigits := es.2.takeWhile Char.isDigit
        let r5 := es.2.dropWhile Char.isDigit
        if edigits = [] ∨ r5 ≠ [] then none
        else
          let ev := digitsToNat edigits
          if es.1 < 0 then some ⟨mant, den * 10 ^ ev⟩
          else some ⟨mant * 10 ^ ev, den⟩
      else none

/-! ### `src/utils/safe_eval.py` — the sandboxed expression evaluator

`PyExpr` mirrors the fragment of Python's `ast` expression nodes reachable
from the expressions this plugin feeds to `safe_eval_math`, plus the
boolean/`None` constants (`ast.Constant`).  `evalAst` is
`SafeMathEvaluator.visit`; `Except` errors stand for raised exceptions. -/

inductive PyExpr where
  | const (q : PyQ)
  | constBool (b : Bool)
  | constNone
  | name (id : String)
  | binop (op : String) (l r : PyExpr)
  | unaryop (op : String) (e : PyExpr)
  | call (func : PyExpr) (args : List PyExpr) (hasKwargs : Bool)

/-- Modelled value of `math.pi` (the decimal digits CPython prints). -/
def piQ : PyQ := ⟨3141592653589793, 1000000000000000⟩

/-- Modelled value of `math.e` (the decimal digits CPython prints). -/
def eQ : PyQ := ⟨2718281828459045, 1000000000000000⟩

/-- Evaluation errors: each constructor stands for one kind of Python
exception raised inside the evaluator; `safe_eval_math` maps them all to
the NaN sentinel. -/
inductive EvalErr where
  | unsupportedConst
  | unsupportedVariable
  | unsupportedNode
  | nonSimpleCall
  | unsupportedFunction
  | keywordArgs
  | zeroDivision
  | valueError
  | typeError
  | overflowError
  deriving DecidableEq, Repr

/-- The ten allow-listed function names (`ALLOWED_FUNCTIONS`). -/
def allowedFunctions : List String :=
  ["sqrt", "sin", "cos", "tan", "exp", "log", "log10", "abs", "ceil", "floor"]

/-- Exact square root when the reduced fraction is a perfect square,
placeholder `0` otherwise (the numeric value of `math.sqrt` on non-squares
is abstracted; no claim depends on it). -/
def sqrtStub (x : PyQ) : PyQ :=
  let nd := x.norm
  let sn := Nat.sqrt nd.1.natAbs
  let sd := Nat.sqrt nd.2.natAbs
  if sn * sn = nd.1.natAbs ∧ sd * sd = nd.2.natAbs then ⟨sn, sd⟩ else ⟨0, 1⟩

/-- Placeholder value for the transcendental `math` functions, whose
numeric results are abstracted by the rational model. -/
def transStub (_ : PyQ) : PyQ := ⟨0, 1⟩

/-- Placeholder value for two-argument `math.log x base`. -/
def transStub2 (_ _ : PyQ) : PyQ := ⟨0, 1⟩

/-- Application of an allow-listed function to already-evaluated arguments:
`func(*args)` in `visit_Call`.  Domain errors and arity errors reproduce
the exceptions the corresponding CPython calls raise. -/
def applyFunc (fn : String) (args : List PyQ) : Except EvalErr PyQ :=
  match fn, args with
  | "sqrt", [x] => if x.ltB ⟨0, 1⟩ then .error .valueError else .ok (sqrtStub x)
  | "sin", [x] => .ok (transStub x)
  | "cos", [x] => .ok (transStub x)
  | "tan", [x] => .ok (transStub x)
  | "exp", [x] => if PyQ.ltB ⟨709, 1⟩ x then .error .overflowError else .ok (transStub x)
  | "log", [x] => if x.leB ⟨0, 1⟩ then .error .valueError else .ok (transStub x)
  | "log", [x, b] =>
    if x.leB ⟨0, 1⟩ ∨ b.leB ⟨0, 1⟩ then .error .valueError
    else if b.eqv ⟨1, 1⟩ then .error .zeroDivision
    else .ok (transStub2 x b)
  | "log10", [x] => if x.leB ⟨0, 1⟩ then .error .valueError else .ok (transStub x)
  | "abs", [x] => .ok ⟨x.num.natAbs, x.den.natAbs⟩
  | "ceil", [x] => .ok (PyQ.ofInt x.ceilI)
  | "floor", [x] => .ok (PyQ.ofInt x.floorI)
  | _, _ => .error .typeError

/-- One binary operation from `ALLOWED_BINARY_OPS`, with CPython's
exception behaviour on zero divisors and on negative bases raised to
non-integer powers (where `float(complex)` later raises `TypeError`). -/
def applyBinOp (op : String) (x y : PyQ) : Except EvalErr PyQ :=
  if op = "Add" then .ok (x.add y)
  else if op = "Sub" then .ok (x.sub y)
  else if op = "Mult" then .ok (x.mul y)
  else if op = "Div" then
    if y.eqv ⟨0, 1⟩ then .error .zeroDivision else .ok (x.divUnchecked y)
  else if op = "FloorDiv" then
    if y.eqv ⟨0, 1⟩ then .error .zeroDivision
    else .ok (PyQ.ofInt (x.divUnchecked y).floorI)
  else if op = "Mod" then
    if y.eqv ⟨0, 1⟩ then .error .zeroDivision
    else .ok (x.sub (y.mul (PyQ.ofInt (x.divUnchecked y).floorI)))
  else if op = "Pow" then
    if y.isIntB then
      if x.eqv ⟨0, 1⟩ ∧ y.ltB ⟨0, 1⟩ then .error .zeroDivision
      else .ok (x.powInt (Int.fdiv y.num y.den))
    else if x.ltB ⟨0, 1⟩ then .error .typeError
    else .ok (transStub2 x y)
  else .error .unsupportedNode

mutual

/-- `SafeMathEvaluator.visit` (fuel-indexed so that the mutual recursion
into argument lists stays structural and kernel-reducible; the fuel is
instantiated with `sizeOf` of the expression, which always suffices).
`ast.Constant` booleans pass the `isinstance(value, (int, float))` test
(Python `bool` is an `int` subclass) and evaluate to `1.0` / `0.0`. -/
def evalAstF : Nat → PyExpr → Except EvalErr PyQ
  | 0, _ => .error .unsupportedNode
  | _ + 1, .const q => .ok q
  | _ + 1, .constBool b => .ok (if b then ⟨1, 1⟩ else ⟨0, 1⟩)
  | _ + 1, .constNone => .error .unsupportedConst
  | _ + 1, .name id =>
    if id = "pi" then .ok piQ
    else if id = "e" then .ok eQ
    else .error .unsupportedVariable
  | fuel + 1, .binop op l r =>
    match evalAstF fuel l with
    | .error e => .error e
    | .ok x =>
      match evalAstF fuel r with
      | .error e => .error e
      | .ok y => applyBinOp op x y
  | fuel + 1, .unaryop op e =>
    match evalAstF fuel e with
    | .error er => .error er
    | .ok x =>
      if op = "UAdd" then .ok x
      else if op = "USub" then .ok x.neg
      else .error .unsupportedNode
  | fuel + 1, .call f args kw =>
    match f with
    | .name fn =>
      if allowedFunctions.contains fn then
        match evalArgsF fuel args with
        | .error e => .error e
        | .ok vs => if kw then .error .keywordArgs else applyFunc fn vs
      else .error .unsupportedFunction
    | _ => .error .nonSimpleCall

/-- Evaluate the arguments of a call in order (the list comprehension in
`visit_Call`), propagating the first raised exception. -/
def evalArgsF : Nat → List PyExpr → Except EvalErr (List PyQ)
  | _, [] => .ok []
  | 0, _ :: _ => .error .unsupportedNode
  | fuel + 1, a :: rest =>
    match evalAstF fuel a with
    | .error e => .error e
    | .ok v =>
      match evalArgsF fuel rest with
      | .error e => .error e
      | .ok vs => .ok (v :: vs)

end

mutual

/-- Structural check that an expression contains, anywhere, a construct
outside the evaluator's allow-list: an identifier other than `pi` / `e`
in value position, a call whose callee is not a plain allow-listed name,
keyword arguments, or a non-numeric constant.  Fuel-indexed like the
evaluator (fuel exhaustion yields `false`). -/
def badExprF : Nat → PyExpr → Bool
  | 0, _ => false
  | _ + 1, .const _ => false
  | _ + 1, .constBool _ => false
  | _ + 1, .constNone => true
  | _ + 1, .name id => !(id == "pi" || id == "e")
  | fuel + 1, .binop _ l r => badExprF fuel l || badExprF fuel r
  | fuel + 1, .unaryop _ e => badExprF fuel e
  | fuel + 1, .call f args kw =>
    (match f with
     | .name fn => !(allowedFunctions.contains fn)
     | _ => true)
    || kw || badArgsF fuel args

/-- `badExprF` over an argument list. -/
def badArgsF : Nat → List PyExpr → Bool
  | _, [] => false
  | 0, _ :: _ => false
  | fuel + 1, a :: rest => badExprF fuel a || badArgsF fuel rest

end

/-- Skip inline whitespace (spaces and tabs) between tokens.  Newlines are
not skipped: a bare newline inside an expression is a Python
`SyntaxError`. -/
def skipTok (s : List Char) : List Char :=
  s.dropWhile (fun c => c = ' ' || c = '\t')

/-- Scan a numeric literal (`digits [. digits] [eE [+-] digits]`, or
`. digits`); returns its exact value and the rest. -/
def scanNumber (s : List Char) : Option (PyQ × List Char) :=
  let ipart := s.takeWhile Char.isDigit
  let r1 := s.dropWhile Char.isDigit
  let hasDot := match r1 with | '.' :: _ => true | _ => false
  let r2 := if hasDot then r1.drop 1 else r1
  let fpart := r2.takeWhile Char.isDigit
  let r3 := r2.dropWhile Char.isDigit
  if ipart = [] ∧ fpart = [] then none
  else
    let mant : Int := (digitsToNat (ipart ++ fpart) : Int)
    let den : Int := (10 : Int) ^ fpart.length
    match r3 with
    | 'e' :: r4 | 'E' :: r4 =>
      let es : Int × List Char :=
        match r4 with
        | '-' :: r => (-1, r)
        | '+' :: r => (1, r)
        | r => (1, r)
      let edigits := es.2.takeWhile Char.isDigit
      let r5 := es.2.dropWhile Char.isDigit
      if edigits = [] then none
      else
        let ev := digitsToNat edigits
        if es.1 < 0 then some (⟨mant, den * 10 ^ ev⟩, r5)
        else some (⟨mant * 10 ^ ev, den⟩, r5)
    | _ => some (⟨mant, den⟩, r3)

/-- Scan an identifier (`[A-Za-z_][A-Za-z0-9_]*`). -/
def scanIdent (s : List Char) : Option (String × List Char) :=
  match s with
  | c :: _ =>
    if c.isAlpha || c = '_' then
      some (String.mk (s.takeWhile isWordChar), s.dropWhile isWordChar)
    else none
  | [] => none

mutual

/-- Additive level of the Python expression grammar (`a + b - c`,
left-associative). -/
def parseArith : Nat → List Char → Option (PyExpr × List Char)
  | 0, _ => none
  | fuel + 1, s =>
    match parseTerm fuel s with
    | none => none
    | some (e, rest) => parseArithRest fuel e rest

def parseArithRest : Nat → PyExpr → List Char → Option (PyExpr × List Char)
  | 0, _, _ => none
  | fuel + 1, acc, s =>
    match skipTok s with
    | '+' :: r =>
      match parseTerm fuel r with
      | none => none
      | some (e, rest) => parseArithRest fuel (.binop ("Add") acc e) rest
    | '-' :: r =>
      match parseTerm fuel r with
      | none => none
      | some (e, rest) => parseArithRest fuel (.binop ("Sub") acc e) rest
    | _ => some (acc, s)

/-- Multiplicative level (`* / // %`, left-associative; `**` belongs to
the power level and is excluded here). -/
def parseTerm : Nat → List Char → Option (PyExpr × List Char)
  | 0, _ => none
  | fuel + 1, s =>
    match parseUnary fuel s with
    | none => none
    | some (e, rest) => parseTermRest fuel e rest

def parseTermRest : Nat → PyExpr → List Char → Option (PyExpr × List Char)
  | 0, _, _ => none
  | fuel + 1, acc, s =>
    match skipTok s with
    | '*' :: '*' :: _ => some (acc, s)
    | '*' :: r =>
      match parseUnary fuel r with
      | none => none
      | some (e, rest) => parseTermRest fuel (.binop ("Mult") acc e) rest
    | '/' :: '/' :: r =>
      match parseUnary fuel r with
      | none => none
      | some (e, rest) => parseTermRest fuel (.binop ("FloorDiv") acc e) rest
    | '/' :: r =>
      match parseUnary fuel r with
      | none => none
      | some (e, rest) => parseTermRest fuel (.binop ("Div") acc e) rest
    | '%' :: r =>
      match parseUnary fuel r with
      | none => none
      | some (e, rest) => parseTermRest fuel (.binop ("Mod") acc e) rest
    | _ => some (acc, s)

/-- Unary level (`+x`, `-x`); Python's `factor` production. -/
def parseUnary : Nat → List Char → Option (PyExpr × List Char)
  | 0, _ => none
  | fuel + 1, s =>
    match skipTok s with
    | '-' :: r =>
      match parseUnary fuel r with
      | none => none
      | some (e, rest) => some (.unaryop ("USub") e, rest)
    | '+' :: r =>
      match parseUnary fuel r with
      | none => none
      | some (e, rest) => some (.unaryop ("UAdd") e, rest)
    | _ => parsePower fuel s

/-- Power level: `atom_expr ['**' factor]`, right-associative, exponent
may be signed. -/
def parsePower : Nat → List Char → Option (PyExpr × List Char)
  | 0, _ => none
  | fuel + 1, s =>
    match parseAtomTrail fuel s with
    | none => none
    | some (e, rest) =>
      match skipTok rest with
      | '*' :: '*' :: r =>
        match parseUnary fuel r with
        | none => none
        | some (e2, rest2) => some (.binop ("Pow") e e2, rest2)
      | _ => some (e, rest)

/-- Atom followed by call trailers (`f(x)`, `f(x)(y)`, `(e)(x)` ...). -/
def parseAtomTrail : Nat → List Char → Option (PyExpr × List Char)
  | 0, _ => none
  | fuel + 1, s =>
    match parseAtom fuel s with
    | none => none
    | some (e, rest) => parseTrailers fuel e rest

def parseTrailers : Nat → PyExpr → List Char → Option (PyExpr × List Char)
  | 0, _, _ => none
  | fuel + 1, acc, s =>
    match skipTok s with
    | '(' :: r =>
      match parseArgs fuel r with
      | none => none
      | some (args, kw, rest) => parseTrailers fuel (.call acc args kw) rest
    | _ => some (acc, s)

/-- Atoms: numeric literals, identifiers (with the keyword constants
`True` / `False` / `None`), parenthesized expressions. -/
def parseAtom : Nat → List Char → Option (PyExpr × List Char)
  | 0, _ => none
  | fuel + 1, s =>
    match skipTok s with
    | '(' :: r =>
      match parseArith fuel r with
      | none => none
      | some (e, rest) =>
        match skipTok rest with
        | ')' :: rest2 => some (e, rest2)
        | _ => none
    | t =>
      match scanNumber t with
      | some (q, rest) => some (.const q, rest)
      | none =>
        match scanIdent t with
        | some (id, rest) =>
          if id = "True" then some (.constBool true, rest)
          else if id = "False" then some (.constBool false, rest)
          else if id = "None" then some (.constNone, rest)
          else some (.name id, rest)
        | none => none

/-- Call argument list, after the opening parenthesis.  Positional
arguments are collected; a `name=expr` keyword argument sets the keyword
flag (Python keeps keywords in `node.keywords`, which the evaluator only
tests for non-emptiness). -/
def parseArgs : Nat → List Char → Option (List PyExpr × Bool × List Char)
  | 0, _ => none
  | fuel + 1, s =>
    match skipTok s with
    | ')' :: rest => some ([], false, rest)
    | _ => parseArgsLoop fuel s

def parseArgsLoop : Nat → List Char → Option (List PyExpr × Bool × List Char)
  | 0, _ => none
  | fuel + 1, s =>
    let kwTry : Option (List Char) :=
      match scanIdent (skipTok s) with
      | some (_, r1) =>
        match skipTok r1 with
        | '=' :: '=' :: _ => none
        | '=' :: r2 => some r2
        | _ => none
      | none => none
    match kwTry with
    | some r2 =>
      match parseArith fuel r2 with
      | none => none
      | some (_, rest) => parseArgsSep fuel [] true rest
    | none =>
      match parseArith fuel s with
      | none => none
      | some (e, rest) => parseArgsSep fuel [e] false rest

def parseArgsSep : Nat → List PyExpr → Bool → List Char → Option (List PyExpr × Bool × List Char)
  | 0, _, _, _ => none
  | fuel + 1, args, kw, s =>
    match skipTok s with
    | ')' :: rest => some (args, kw, rest)
    | ',' :: r =>
      match skipTok r with
      | ')' :: rest => some (args, kw, rest)
      | _ =>
        let kwTry : Option (List Char) :=
          match scanIdent (skipTok r) with
          | some (_, r1) =>
            match skipTok r1 with
            | '=' :: '=' :: _ => none
            | '=' :: r2 => some r2
            | _ => none
          | none => none
        match kwTry with
        | some r2 =>
          match parseArith fuel r2 with
          | none => none
          | some (_, rest) => parseArgsSep fuel args true rest
        | none =>
          match parseArith fuel r with
          | none => none
          | some (e, rest) => parseArgsSep fuel (args ++ [e]) kw rest
    | _ => none

end

/-- `ast.parse(expr, mode="eval")` for the expression fragment above:
parse one expression and require only trailing whitespace afterwards. -/
def pyParse (s : String) : Option PyExpr :=
  match parseArith (8 * (s.length + 1)) s.data with
  | none => none
  | some (e, rest) => if rest.dropWhile pyIsSpaceB = [] then some e else none

/-- `safe_eval_math` (`src/utils/safe_eval.py`): parse, walk with the
allow-list evaluator, and absorb every raised exception into the NaN
sentinel, modelled as `none`. -/
def safe_eval_math (s : String) : Option PyQ :=
  match pyParse s with
  | none => none
  | some t =>
    match evalAstF (8 * (s.length + 1)) t with
    | .error _ => none
    | .ok v => some v

/-- The claim-level predicate for C2: the input fails to parse, or its
parsed expression uses a construct outside the allow-list. -/
def badParse (s : String) : Bool :=
  match pyParse s with
  | none => true
  | some t => badExprF (8 * (s.length + 1)) t

/-! ### `src/infrastructure/converter/tikz_plot_converter.py`

`re.sub` loops become fuel-indexed scans.  Each matcher consumes at least
one character, so fuel `s.length` always suffices. -/

/-- Generic `re.sub` engine: at each position try the matcher; on success
emit its replacement and continue after the consumed span, otherwise copy
one character. -/
def reSubGAux (m : List Char → Option (List Char × List Char)) : Nat → List Char → List Char
  | 0, s => s
  | _ + 1, [] => []
  | fuel + 1, c :: rest =>
    match m (c :: rest) with
    | some (repl, after) => repl ++ reSubGAux m fuel after
    | none => c :: reSubGAux m fuel rest

/-- `re.sub` with a position-indexed matcher. -/
def reSubG (m : List Char → Option (List Char × List Char)) (s : List Char) : List Char :=
  reSubGAux m s.length s

/-- `re.sub` engine threading the previous original character, for
matchers with a left word-boundary (`\b`).  The matcher returns
`(replacement, consumed, after)` with `s = consumed ++ after`. -/
def reSubCAux (m : Option Char → List Char → Option (List Char × List Char × List Char)) :
    Nat → Option Char → List Char → List Char
  | 0, _, s => s
  | _ + 1, _, [] => []
  | fuel + 1, prev, c :: rest =>
    match m prev (c :: rest) with
    | some (repl, consumed, after) => repl ++ reSubCAux m fuel consumed.getLast? after
    | none => c :: reSubCAux m fuel (some c) rest

/-- Context-threading `re.sub`. -/
def reSubC (m : Option Char → List Char → Option (List Char × List Char × List Char))
    (s : List Char) : List Char :=
  reSubCAux m s.length none s

/-- Literal-string step of a matcher: `some rest` iff `s = lit ++ rest`. -/
def expectLit (lit s : List Char) : Option (List Char) :=
  if lit.isPrefixOf s then some (s.drop lit.length) else none

/-- Maximal-munch `\s*`: the whitespace prefix and the remainder. -/
def splitWs (s : List Char) : List Char × List Char :=
  (s.takeWhile pyIsSpaceB, s.dropWhile pyIsSpaceB)

/-- `_clean_html_entities`: the four HTML entity replacements, applied in
the source's (insertion) order. -/
def cleanHtmlEntitiesL (s : List Char) : List Char :=
  let s1 := replaceAll s ("&nbsp;").data (" ").data
  let s2 := replaceAll s1 ("&amp;").data ("&").data
  let s3 := replaceAll s2 ("&lt;").data ("<").data
  replaceAll s3 ("&gt;").data (">").data

/-- Components of one match of the plot-command pattern
`\draw\s*\[([^\]]*)\]\s*plot\s*\(\s*([^,]+)\s*,\s*\{([^}]+)\}\s*\)\s*;`. -/
structure PlotMatch where
  full : List Char
  opts : List Char
  xe : List Char
  ye : List Char
  rest : List Char

/-- Matcher for the plot-command pattern at the current position.  The
character-class repetitions are deterministic maximal munch; the one
backtracking case of the regex (`\s*([^,]+)\s*,` on an all-whitespace
segment, where the group backtracks to the final whitespace character) is
reproduced explicitly. -/
def tryMatchPlot (s : List Char) : Option PlotMatch :=
  match expectLit ("\\draw").data s with
  | none => none
  | some r1 =>
    let w1 := splitWs r1
    match w1.2 with
    | '[' :: r2 =>
      let opts := r2.takeWhile (· != ']')
      match r2.dropWhile (· != ']') with
      | ']' :: r3 =>
        let w2 := splitWs r3
        match expectLit ("plot").data w2.2 with
        | none => none
        | some r4 =>
          let w3 := splitWs r4
          match w3.2 with
          | '(' :: r5 =>
            let seg := r5.takeWhile (· != ',')
            match r5.dropWhile (· != ',') with
            | ',' :: r6 =>
              if hseg : seg = [] then none
              else
                let xe := if seg.dropWhile pyIsSpaceB ≠ [] then seg.dropWhile pyIsSpaceB
                  else [seg.getLast hseg]
                let w4 := splitWs r6
                match w4.2 with
                | '\x7b' :: r7 =>
                  let ye := r7.takeWhile (· != '\x7d')
                  if ye = [] then none
                  else
                    match r7.dropWhile (· != '\x7d') with
                    | '\x7d' :: r8 =>
                      let w5 := splitWs r8
                      match w5.2 with
                      | ')' :: r9 =>
                        let w6 := splitWs r9
                        match w6.2 with
                        | ';' :: r10 =>
                          some
                            { full := ("\\draw").data ++ w1.1 ++ ['['] ++ opts ++ [']'] ++
                                w2.1 ++ ("plot").data ++ w3.1 ++ ['('] ++ seg ++ [','] ++
                                w4.1 ++ ['\x7b'] ++ ye ++ ['\x7d'] ++ w5.1 ++ [')'] ++
                                w6.1 ++ [';']
                              opts := opts
                              xe := xe
                              ye := ye
                              rest := r10 }
                        | _ => none
                      | _ => none
                    | _ => none
                | _ => none
            | _ => none
          | _ => none
      | _ => none
    | _ => none

/-- Characters of the `[-\d.]` class in the domain pattern. -/
def isDomChar (c : Char) : Bool :=
  c.isDigit || c = '-' || c = '.'

/-- Match `domain\s*=\s*([-\d.]+)\s*:\s*([-\d.]+)` at the current
position, returning the two groups. -/
def tryDomainAt (s : List Char) : Option (List Char × List Char) :=
  match expectLit ("domain").data s with
  | none => none
  | some r1 =>
    match (splitWs r1).2 with
    | '=' :: r2 =>
      let r3 := (splitWs r2).2
      let g1 := r3.takeWhile isDomChar
      if g1 = [] then none
      else
        match (splitWs (r3.dropWhile isDomChar)).2 with
        | ':' :: r4 =>
          let r5 := (splitWs r4).2
          let g2 := r5.takeWhile isDomChar
          if g2 = [] then none else some (g1, g2)
        | _ => none
    | _ => none

/-- `re.search` of the domain pattern: leftmost match. -/
def searchDomain : List Char → Option (List Char × List Char)
  | [] => none
  | c :: rest =>
    match tryDomainAt (c :: rest) with
    | some g => some g
    | none => searchDomain rest

/-- `_parse_domain`: the regex match converted with `float()`.  Where
`float()` would raise on a malformed group (e.g. `domain=.:.`, impossible
for the inputs of any claim) the model returns `none` instead of
propagating an exception. -/
def parseDomain (opts : List Char) : Option (PyQ × PyQ) :=
  match searchDomain opts with
  | none => none
  | some (g1, g2) =>
    match pyFloatOfString (String.mk g1), pyFloatOfString (String.mk g2) with
    | some a, some b => some (a, b)
    | _, _ => none

/-- Match `samples\s*=\s*(\d+)` at the current position. -/
def trySamplesAt (s : List Char) : Option (List Char) :=
  match expectLit ("samples").data s with
  | none => none
  | some r1 =>
    match (splitWs r1).2 with
    | '=' :: r2 =>
      let r3 := (splitWs r2).2
      let g := r3.takeWhile Char.isDigit
      if g = [] then none else some g
    | _ => none

/-- `re.search` of the samples pattern. -/
def searchSamples : List Char → Option (List Char)
  | [] => none
  | c :: rest =>
    match trySamplesAt (c :: rest) with
    | some g => some g
    | none => searchSamples rest

/-- `_parse_samples`: matched digits or the default 50. -/
def parseSamples (opts : List Char) : Nat :=
  match searchSamples opts with
  | some g => digitsToNat g
  | none => 50

/-- Matcher for stripping `,?\s*domain\s*=\s*[-\d.]+\s*:\s*[-\d.]+`
(replacement is empty).  The optional leading comma cannot backtrack
usefully: if the tail fails after consuming `,`, the pattern cannot match
at the comma at all. -/
def tryStripDomainAt (s : List Char) : Option (List Char × List Char) :=
  let r0 := match s with | ',' :: r => r | r => r
  match expectLit ("domain").data (splitWs r0).2 with
  | none => none
  | some r1 =>
    match (splitWs r1).2 with
    | '=' :: r2 =>
      let r3 := (splitWs r2).2
      let g1 := r3.takeWhile isDomChar
      if g1 = [] then none
      else
        match (splitWs (r3.dropWhile isDomChar)).2 with
        | ':' :: r4 =>
          let r5 := (splitWs r4).2
          let g2 := r5.takeWhile isDomChar
          if g2 = [] then none else some ([], r5.dropWhile isDomChar)
        | _ => none
    | _ => none

/-- Matcher for stripping `,?\s*samples\s*=\s*\d+`. -/
def tryStripSamplesAt (s : List Char) : Option (List Char × List Char) :=
  let r0 := match s with | ',' :: r => r | r => r
  match expectLit ("samples").data (splitWs r0).2 with
  | none => none
  | some r1 =>
    match (splitWs r1).2 with
    | '=' :: r2 =>
      let r3 := (splitWs r2).2
      let g := r3.takeWhile Char.isDigit
      if g = [] then none else some ([], r3.dropWhile Char.isDigit)
    | _ => none

/-- `_extract_style_options`: strip the domain and samples tokens, then
`strip(" ,")`. -/
def extractStyleOptions (opts : List Char) : List Char :=
  pyStripCharsL ([' '] ++ [','])
    (reSubG tryStripSamplesAt (reSubG tryStripDomainAt opts))

/-- The decimal digits CPython prints for `math.pi` (the replacement text
`str(math.pi)` used by `_eval_tikz_expr`). -/
def piStr : String := "3.141592653589793"

/-- Matcher for `\bpi\b` → `str(math.pi)`. -/
def piWordMatcher (prev : Option Char) (s : List Char) :
    Option (List Char × List Char × List Char) :=
  let leftOk := match prev with
    | none => true
    | some c => !(isWordChar c)
  match s with
  | 'p' :: 'i' :: after =>
    let rightOk := match after with
      | [] => true
      | c :: _ => !(isWordChar c)
    if leftOk && rightOk then some (piStr.data, ['p'] ++ ['i'], after) else none
  | _ => none

/-- Matcher for `name\s*\(` → `repl` (with an optional left `\b`). -/
def funcCallMatcher (boundary : Bool) (name repl : List Char) (prev : Option Char)
    (s : List Char) : Option (List Char × List Char × List Char) :=
  let leftOk := !boundary || (match prev with
    | none => true
    | some c => !(isWordChar c))
  if leftOk then
    match expectLit name s with
    | none => none
    | some r1 =>
      let w := splitWs r1
      match w.2 with
      | '(' :: r2 => some (repl, name ++ w.1 ++ ['('], r2)
      | _ => none
  else none

/-- `_eval_tikz_expr`: substitute the sampling variable, apply the
translation table, and evaluate with `safe_eval_math`. -/
def evalTikzExpr (expr : List Char) (x : PyQ) : Option PyQ :=
  let e0 := replaceAll expr ("\\x").data (pyFloatRepr x).data
  let e1 := replaceAll e0 ("\\pi").data piStr.data
  let e2 := reSubC piWordMatcher e1
  let e3 := reSubC (funcCallMatcher false ("sqrt").data ("sqrt(").data) e2
  let e4 := reSubC (funcCallMatcher false ("sin").data ("sin(").data) e3
  let e5 := reSubC (funcCallMatcher false ("cos").data ("cos(").data) e4
  let e6 := reSubC (funcCallMatcher false ("tan").data ("tan(").data) e5
  let e7 := reSubC (funcCallMatcher false ("exp").data ("exp(").data) e6
  let e8 := reSubC (funcCallMatcher true ("log").data ("log10(").data) e7
  let e9 := reSubC (funcCallMatcher true ("ln").data ("log(").data) e8
  let e10 := reSubC (funcCallMatcher false ("abs").data ("abs(").data) e9
  let e11 := replaceAll e10 (['^']) ("**").data
  safe_eval_math (String.mk e11)

/-- `_generate_points`: sample, evaluate both coordinate expressions, keep
the finite points, format to four decimal places.  (In the exact rational
model a successful evaluation is always finite, so the `isnan`/`isinf`
filter reduces to the NaN check.) -/
def generatePoints (xmin xmax : PyQ) (samples : Nat) (xe ye : List Char) : List String :=
  let step := if 1 < samples then (xmax.sub xmin).divUnchecked ⟨(samples : Int) - 1, 1⟩
    else ⟨0, 1⟩
  (List.range samples).filterMap (fun i =>
    let x := xmin.add (PyQ.mul ⟨(i : Int), 1⟩ step)
    match evalTikzExpr xe x, evalTikzExpr ye x with
    | some xv, some yv => some ("(" ++ format4 xv ++ "," ++ format4 yv ++ ")")
    | _, _ => none)

/-- `_convert_plot_cmd`: one matched command to its replacement text. -/
def convertPlotCmd (full opts xe ye : List Char) : List Char :=
  match parseDomain opts with
  | none => full
  | some (xmin, xmax) =>
    let samples := parseSamples opts
    let style := extractStyleOptions opts
    let points := generatePoints xmin xmax samples xe ye
    if points = [] then ("% plot转换失败: ").data ++ full.take 30 ++ ("...").data
    else ("\\draw[").data ++ style ++ ("] ").data ++
      (String.intercalate (" -- ") points).data ++ [';']

/-- The matcher actually handed to the substitution engine. -/
def plotCmdMatcher (s : List Char) : Option (List Char × List Char) :=
  match tryMatchPlot s with
  | none => none
  | some m => some (convertPlotCmd m.full m.opts m.xe m.ye, m.rest)

/-- `TikzPlotConverter.convert`: clean HTML entities, then substitute
every plot command. -/
def tikzPlotConvert (s : String) : String :=
  String.mk (reSubG plotCmdMatcher (cleanHtmlEntitiesL s.data))

/-! ### `src/infrastructure/converter/markdown_converter.py` — the
placeholder protection step (`_extract_math_blocks`, `_extract_code_blocks`)
and its inverse (`_restore_math_blocks`, `_restore_code_blocks`). -/

/-- The placeholder `f"MATHBLOCK{i}MATHBLOCK"`. -/
def mathTok (i : Nat) : List Char :=
  ("MATHBLOCK").data ++ (toString i).data ++ ("MATHBLOCK").data

/-- The placeholder `f"CODEBLOCK{i}CODEBLOCK"`. -/
def codeTok (i : Nat) : List Char :=
  ("CODEBLOCK").data ++ (toString i).data ++ ("CODEBLOCK").data

/-- Lazy search for the closing delimiter: the span content (shortest
possible) and the text after the delimiter.  With `noNL` the content may
not contain a newline (a `.` that is not DOTALL). -/
def findClose (closeD : List Char) (noNL : Bool) : List Char → Option (List Char × List Char)
  | [] => none
  | c :: rest =>
    if closeD.isPrefixOf (c :: rest) then some ([], (c :: rest).drop closeD.length)
    else if noNL && c = '\n' then none
    else
      match findClose closeD noNL rest with
      | none => none
      | some (content, after) => some (c :: content, after)

/-- Matcher for a non-greedy delimited span `open … close`. -/
def delimMatcher (openD closeD : List Char) (noNL : Bool) (s : List Char) :
    Option (List Char × List Char) :=
  match expectLit openD s with
  | none => none
  | some r1 =>
    match findClose closeD noNL r1 with
    | none => none
    | some (content, after) => some (openD ++ content ++ closeD, after)

/-- One `re.sub(pattern, substitute, text)` pass of the protection step:
each match is replaced by `tok idx` and appended to the accumulated block
list (`placeholder = f"...{len(blocks)}..."`). -/
def extrAux (m : List Char → Option (List Char × List Char)) (tok : Nat → List Char) :
    Nat → Nat → List (List Char) → List Char → List Char × Nat × List (List Char)
  | 0, idx, blocks, s => (s, idx, blocks)
  | _ + 1, idx, blocks, [] => ([], idx, blocks)
  | fuel + 1, idx, blocks, c :: rest =>
    match m (c :: rest) with
    | some (span, after) =>
      let r := extrAux m tok fuel (idx + 1) (blocks ++ [span]) after
      (tok idx ++ r.1, r.2)
    | none =>
      let r := extrAux m tok fuel idx blocks rest
      (c :: r.1, r.2)

/-- One protection pass with fuel `s.length`. -/
def extrPass (m : List Char → Option (List Char × List Char)) (tok : Nat → List Char)
    (idx : Nat) (blocks : List (List Char)) (s : List Char) :
    List Char × Nat × List (List Char) :=
  extrAux m tok s.length idx blocks s

/-- `_extract_math_blocks`: the four passes (bracket-display,
paren-inline, dollar-display, dollar-inline) sharing one block list. -/
def extractMathBlocksL (s : List Char) : List Char × List (List Char) :=
  let p1 := extrPass (delimMatcher ("\\[").data ("\\]").data false) mathTok 0 [] s
  let p2 := extrPass (delimMatcher ("\\(").data ("\\)").data false) mathTok p1.2.1 p1.2.2 p1.1
  let p3 := extrPass (delimMatcher ("$$").data ("$$").data false) mathTok p2.2.1 p2.2.2 p2.1
  let p4 := extrPass (delimMatcher (['$']) (['$']) true) mathTok p3.2.1 p3.2.2 p3.1
  (p4.1, p4.2.2)

/-- `_extract_code_blocks`: one pass for ```` ```…``` ````. -/
def extractCodeBlocksL (s : List Char) : List Char × List (List Char) :=
  let p := extrPass (delimMatcher ("```").data ("```").data false) codeTok 0 [] s
  (p.1, p.2.2)

/-- `_restore_math_blocks`: `html.replace(tok i, block)` in index order. -/
def restoreMathBlocksL (html : List Char) (blocks : List (List Char)) : List Char :=
  blocks.enum.foldl (fun h p => replaceAll h (mathTok p.1) p.2) html

/-- The first line and the remainder after the first newline. -/
def splitFirstNL (s : List Char) : List Char × List Char :=
  (s.takeWhile (· != '\n'), (s.dropWhile (· != '\n')).drop 1)

/-- The `<pre><code …>` HTML a stored code block is rewrapped into during
`_restore_code_blocks`. -/
def codeBlockHtml (block : List Char) : List Char :=
  let content := pyStripCharsL (['`']) block
  let lc :=
    if content.contains '\n' then
      let p := splitFirstNL content
      (pyStripL p.1, p.2)
    else ([], content)
  let langClass :=
    if lc.1 ≠ [] then (" class=\"language-").data ++ lc.1 ++ ['"'] else []
  ("<pre><code").data ++ langClass ++ ['>'] ++ lc.2 ++ ("</code></pre>").data

/-- `_restore_code_blocks`. -/
def restoreCodeBlocksL (html : List Char) (blocks : List (List Char)) : List Char :=
  blocks.enum.foldl (fun h p => replaceAll h (codeTok p.1) (codeBlockHtml p.2)) html

/-- The protection step of `convert_to_html` (lines 26–27): math spans are
extracted first, fenced code blocks afterwards.  (The normalization steps
`_fix_tikz_comments` / `_preprocess_markdown` run before protection and
are the identity on every input a claim evaluates; the generic
`markdown.markdown` call between protection and restoration is an external
library and is treated as a token-preserving transformation.) -/
def protectBlocks (text : String) : String × List String × List String :=
  let m := extractMathBlocksL text.data
  let c := extractCodeBlocksL m.1
  (String.mk c.1, m.2.map String.mk, c.2.map String.mk)

/-- Restoration as in `convert_to_html` (lines 35–36): math placeholders
first, then code placeholders. -/
def restoreBlocks (html : String) (mathBlocks codeBlocks : List String) : String :=
  String.mk (restoreCodeBlocksL (restoreMathBlocksL html.data (mathBlocks.map String.data))
    (codeBlocks.map String.data))

/-! ### `src/infrastructure/validator/latex_validator.py` -/

/-- `ValidationResult` of `src/types.py`. -/
structure ValidationResult where
  is_valid : Bool
  errors : List String
  deriving DecidableEq, Repr

/-- The brace-imbalance diagnostic text. -/
def braceMsg (oc cc : Nat) : String :=
  "大括号不匹配: \x7b 有 " ++ toString oc ++ " 个，\x7d 有 " ++ toString cc ++ " 个"

/-- `_check_braces`: count braces after removing the escaped forms. -/
def checkBraces (text : List Char) : Option String :=
  let clean := replaceAll (replaceAll text ("\\\x7b").data []) ("\\\x7d").data []
  let oc := clean.count '\x7b'
  let cc := clean.count '\x7d'
  if oc ≠ cc then some (braceMsg oc cc) else none

/-- Match `\\frac\{([^}]*)\}(?:\{([^}]*)\})?` at the current position:
both groups (the second is empty when the optional part is absent) and the
text after the match. -/
def tryFracAt (s : List Char) : Option ((List Char × List Char) × List Char) :=
  match expectLit ("\\frac\x7b").data s with
  | none => none
  | some r1 =>
    let g1 := r1.takeWhile (· != '\x7d')
    match r1.dropWhile (· != '\x7d') with
    | '\x7d' :: r2 =>
      match r2 with
      | '\x7b' :: r3 =>
        let g2 := r3.takeWhile (· != '\x7d')
        match r3.dropWhile (· != '\x7d') with
        | '\x7d' :: r4 => some ((g1, g2), r4)
        | _ => some ((g1, []), r2)
      | _ => some ((g1, []), r2)
    | _ => none

/-- `re.findall` of the frac pattern (fuel-indexed scan, non-overlapping,
left to right). -/
def findAllFracAux : Nat → List Char → List (List Char × List Char)
  | 0, _ => []
  | _ + 1, [] => []
  | fuel + 1, c :: rest =>
    match tryFracAt (c :: rest) with
    | some (g, after) => g :: findAllFracAux fuel after
    | none => findAllFracAux fuel rest

/-- The frac diagnostic text. -/
def fracMsg (g1 : List Char) : String :=
  "\\frac 命令缺少第二个参数: \\frac\x7b" ++ String.mk g1 ++ "\x7d"

/-- `_check_frac`: a diagnostic for every frac whose second argument is
missing or empty. -/
def checkFrac (text : List Char) : List String :=
  (findAllFracAux text.length text).filterMap (fun g =>
    if g.2 = [] then some (fracMsg g.1) else none)

/-- Match `\\int_\{([^}]*)\}\^\{([^}]*)\}` at the current position. -/
def tryIntAt (s : List Char) : Option ((List Char × List Char) × List Char) :=
  match expectLit ("\\int_\x7b").data s with
  | none => none
  | some r1 =>
    let g1 := r1.takeWhile (· != '\x7d')
    match r1.dropWhile (· != '\x7d') with
    | '\x7d' :: r2 =>
      match expectLit ("^\x7b").data r2 with
      | none => none
      | some r3 =>
        let g2 := r3.takeWhile (· != '\x7d')
        match r3.dropWhile (· != '\x7d') with
        | '\x7d' :: r4 => some ((g1, g2), r4)
        | _ => none
    | _ => none

/-- `re.finditer` of the integral pattern. -/
def findAllIntAux : Nat → List Char → List (List Char × List Char)
  | 0, _ => []
  | _ + 1, [] => []
  | fuel + 1, c :: rest =>
    match tryIntAt (c :: rest) with
    | some (g, after) => g :: findAllIntAux fuel after
    | none => findAllIntAux fuel rest

/-- `_check_integral`: flag an unclosed `\frac` inside either bound. -/
def checkIntegral (text : List Char) : List String :=
  (findAllIntAux text.length text).foldr (fun g acc =>
    let lower :=
      if occursB g.1 ("\\frac").data ∧ g.1.count '\x7b' > g.1.count '\x7d' then
        ["积分下限中有未闭合的 \\frac: " ++ String.mk (g.1.take 30) ++ "..."]
      else []
    let upper :=
      if occursB g.2 ("\\frac").data ∧ g.2.count '\x7b' > g.2.count '\x7d' then
        ["积分上限中有未闭合的 \\frac: " ++ String.mk (g.2.take 30) ++ "..."]
      else []
    lower ++ upper ++ acc) []

/-- `_check_dollar`: the unescaped dollar count must be even. -/
def checkDollar (text : List Char) : Option String :=
  let cnt := text.count '$' - countOccsAll text ("\\$").data
  if cnt % 2 ≠ 0 then some ("数学公式分隔符 $ 数量为奇数，可能未闭合") else none

/-- The environment list of `_check_environments`. -/
def envNames : List String := ["tikzpicture", "tikzcd", "equation", "align"]

/-- `_check_environments`: `\begin`/`\end` counts must agree per
environment. -/
def checkEnvironments (text : List Char) : List String :=
  envNames.foldr (fun name acc =>
    let b := countOccsAll text (("\\begin\x7b" ++ name ++ "\x7d").data)
    let e := countOccsAll text (("\\end\x7b" ++ name ++ "\x7d").data)
    if b ≠ e then
      ("环境 " ++ name ++ " 不匹配: begin 有 " ++ toString b ++ " 个，end 有 " ++
        toString e ++ " 个") :: acc
    else acc) []

/-- `LatexValidator.validate`. -/
def latexValidate (text : String) : ValidationResult :=
  let errors :=
    (checkBraces text.data).toList ++ checkFrac text.data ++ checkIntegral text.data ++
      (checkDollar text.data).toList ++ checkEnvironments text.data
  ⟨errors = [], errors⟩

/-! ### `src/infrastructure/converter/mermaid_converter.py` -/

/-- `MermaidConverter.DIAGRAM_TYPES`. -/
def DIAGRAM_TYPES : List String :=
  ["graph", "flowchart", "sequenceDiagram", "classDiagram", "stateDiagram",
   "erDiagram", "journey", "gantt", "pie", "quadrantChart", "requirementDiagram",
   "gitGraph", "mindmap", "timeline", "zenuml", "sankey", "xychart"]

/-- `_detect_diagram_type`: classify the first line against the known
vocabulary, defaulting to `"unknown"`. -/
def detectDiagramType (code : String) : String :=
  let firstLine := pyLowerL (pyStripL (code.data.takeWhile (· != '\n')))
  match DIAGRAM_TYPES.find? (fun d => (pyLowerL d.data).isPrefixOf firstLine) with
  | some d => d
  | none => "unknown"

/-- `_convert_mermaid_block` applied to the block body (`match.group(1)`):
empty bodies are dropped, everything else is wrapped in
`<pre class="mermaid">`.  The detected diagram type is computed by the
source only for logging and does not influence the returned text. -/
def convertMermaidBlock (body : String) : String :=
  let code := pyStrip body
  if code = "" then ""
  else "<pre class=\"mermaid\">\n" ++ code ++ "\n</pre>"

/-! ### `src/infrastructure/browser/page_renderer.py` — control-flow model

The browser page is abstracted by the observable outcomes of the waits the
renderer performs: whether navigation fails, whether the in-page MathJax
readiness flag turns true within its timeout, how many `.tikz-diagram`
containers exist, what the TikZ `wait_for_function` call produces within
`tikz_timeout`, and whether the screenshot call fails.  The claim scenario
"no drawable primitive (path/line/text/polygon/polyline) appears in any
diagram's SVG before the diagram timeout" is exactly `tikzWait =
.timeout`: the polled page function keeps returning a falsy value, so
`wait_for_function` raises its timeout error. -/

inductive TikzWaitOutcome where
  | timeout
  | completed (success : Bool) (count : Nat)
  deriving DecidableEq, Repr

structure PageModel where
  gotoFails : Bool
  mathJaxReadyInTime : Bool
  tikzContainerCount : Nat
  tikzWait : TikzWaitOutcome
  screenshotFails : Bool
  deriving DecidableEq, Repr

/-- The outcome of one render call: either a raised `RenderError` or a
taken screenshot together with the warnings logged along the way. -/
inductive RenderOutcomeM where
  | renderError (msg : String)
  | screenshot (warnings : List String)
  deriving DecidableEq, Repr

/-- `_wait_for_tikz`: the early return for zero containers, then the
`try` block — a timeout of `wait_for_function` raises, a falsy JSON result
raises `RenderError` — whose `except Exception` handler converts every
raised error into a logged warning and falls through to the settle sleep.
The function therefore never propagates an error; it only produces
warnings. -/
def waitForTikzWarnings (p : PageModel) : List String :=
  if p.tikzContainerCount = 0 then []
  else
    match p.tikzWait with
    | .completed true _ => []
    | .completed false _ => ["TikZ渲染检查: TikZ渲染失败：SVG中没有有效图形元素"]
    | .timeout => ["TikZ渲染检查: TimeoutError"]

/-- `_load_and_wait` followed by `_take_screenshot` inside `_do_render`:
navigation and screenshot failures raise `RenderError`; the MathJax wait
degrades to a warning; the TikZ wait is `waitForTikzWarnings`. -/
def doRender (p : PageModel) : RenderOutcomeM :=
  if p.gotoFails then .renderError ("渲染失败: goto")
  else
    let w1 := if p.mathJaxReadyInTime then [] else ["MathJax 等待超时"]
    let w2 := waitForTikzWarnings p
    if p.screenshotFails then .renderError ("渲染失败: screenshot")
    else .screenshot (w1 ++ w2)

/-! ### Claim-level auxiliary definitions -/

/-- The four HTML entities `_clean_html_entities` rewrites. -/
def entityList : List (List Char) :=
  [("&nbsp;").data, ("&amp;").data, ("&lt;").data, ("&gt;").data]

/-- The input contains one of the four entities. -/
def containsEntityB (s : List Char) : Bool :=
  entityList.any (fun e => occursB s e)

/-- No suffix of the text matches the plot-command pattern, i.e. the text
contains no plot drawing command (in the converter's own sense). -/
def noPlotMatchB (s : List Char) : Bool :=
  s.tails.all (fun suf => (tryMatchPlot suf).isNone)

/-- Sequential replacement of a list of `(placeholder, replacement)`
pairs, the shape shared by `_restore_math_blocks` and
`_restore_code_blocks`. -/
def foldRepl (s : List Char) (ps : List (List Char × List Char)) : List Char :=
  ps.foldl (fun acc p => replaceAll acc p.1 p.2) s

/-- The `(placeholder, final replacement text)` pairs the Document
Assembler's restoration step applies, in its application order: math
placeholders restore the stored span verbatim, code placeholders restore
the `<pre><code …>` rewrapping. -/
def tokenPairs (mbs cbs : List String) : List (List Char × List Char) :=
  mbs.enum.map (fun p => (mathTok p.1, p.2.data)) ++
    cbs.enum.map (fun p => (codeTok p.1, codeBlockHtml p.2.data))

/-- Interleaving of clean chunks and placeholder tokens:
`interleave [c0, c1, …, cn] [t0, …, t(n-1)] = c0 ++ t0 ++ c1 ++ … ++ cn`. -/
def interleave : List (List Char) → List (List Char) → List Char
  | [], _ => []
  | c :: _, [] => c
  | c :: cs, t :: ts => c ++ t ++ interleave cs ts

/-- Boundary conditions letting a replacement string act as a separator
for a token: the token does not occur inside it and its first and last
characters occur nowhere in the token (so no token occurrence can overlap
an inserted replacement). -/
def sepOKB (r t : List Char) : Bool :=
  match r.head?, r.getLast? with
  | some h, some l => !(occursB r t) && !(t.contains h) && !(t.contains l)
  | _, _ => false

/-- An `Except` value that is an error (a raised Python exception). -/
def IsErrE (x : Except EvalErr PyQ) : Prop :=
  ∃ e, x = .error e

/-! ## Lemmas about the `str.replace` machinery -/

theorem length_pos_of_ne_nil {pat : List Char} (hpat : pat ≠ []) : 1 ≤ pat.length := by
  cases pat with
  | nil => exact absurd rfl hpat
  | cons a l => simp

theorem replAux_succ_pos (pat r : List Char) (f : Nat) (c : Char) (rest : List Char)
    (hp : pat.isPrefixOf (c :: rest)) :
    replAux pat r (f + 1) (c :: rest) = r ++ replAux pat r f ((c :: rest).drop pat.length) := by
  simp [replAux, hp]

theorem replAux_succ_neg (pat r : List Char) (f : Nat) (c : Char) (rest : List Char)
    (hp : ¬ pat.isPrefixOf (c :: rest)) :
    replAux pat r (f + 1) (c :: rest) = c :: replAux pat r f rest := by
  simp [replAux, hp]

theorem replAux_congr (pat r : List Char) (hpat : pat ≠ []) :
    ∀ f₁ : Nat, ∀ s : List Char, ∀ f₂ : Nat, s.length ≤ f₁ → s.length ≤ f₂ →
      replAux pat r f₁ s = replAux pat r f₂ s := by
  intro f₁
  induction f₁ with
  | zero =>
    intro s f₂ h1 _
    have hs : s = [] := List.length_eq_zero.mp (Nat.le_zero.mp h1)
    subst hs
    cases f₂ <;> simp [replAux]
  | succ f ih =>
    intro s f₂ h1 h2
    cases s with
    | nil => cases f₂ <;> simp [replAux]
    | cons c rest =>
      cases f₂ with
      | zero => simp at h2
      | succ g =>
        have hlen : 1 ≤ pat.length := length_pos_of_ne_nil hpat
        simp only [List.length_cons] at h1 h2
        by_cases hp : pat.isPrefixOf (c :: rest)
        · rw [replAux_succ_pos pat r f c rest hp, replAux_succ_pos pat r g c rest hp]
          congr 1
          apply ih
          · simp only [List.length_drop, List.length_cons]; omega
          · simp only [List.length_drop, List.length_cons]; omega
        · rw [replAux_succ_neg pat r f c rest hp, replAux_succ_neg pat r g c rest hp]
          congr 1
          apply ih rest g (by omega) (by omega)

theorem replaceAll_nil (pat r : List Char) : replaceAll [] pat r = [] := by
  by_cases h : pat = [] <;> simp [replaceAll, h, replAux]

theorem replaceAll_pos (s pat r : List Char) (hpat : pat ≠ [])
    (hp : pat.isPrefixOf s) :
    replaceAll s pat r = r ++ replaceAll (s.drop pat.length) pat r := by
  have hlen : 1 ≤ pat.length := length_pos_of_ne_nil hpat
  have hsl : pat.length ≤ s.length :=
    (List.isPrefixOf_iff_prefix.mp hp).length_le
  cases s with
  | nil =>
    cases pat with
    | nil => exact absurd rfl hpat
    | cons a l => simp [List.isPrefixOf] at hp
  | cons c rest =>
    simp only [replaceAll, hpat, if_false, List.length_cons]
    rw [replAux_succ_pos pat r (rest.length) c rest hp]
    congr 1
    apply replAux_congr pat r hpat
    · simp only [List.length_drop, List.length_cons]
      simp only [List.length_cons] at hsl
      omega
    · simp only [List.length_drop, Nat.le_refl]

theorem replaceAll_neg (c : Char) (rest pat r : List Char) (hpat : pat ≠ [])
    (hp : ¬ pat.isPrefixOf (c :: rest)) :
    replaceAll (c :: rest) pat r = c :: replaceAll rest pat r := by
  simp only [replaceAll, hpat, if_false, List.length_cons]
  rw [replAux_succ_neg pat r (rest.length) c rest hp]

theorem occurs_of_isPrefixOf {s t : List Char} (h : t.isPrefixOf s) : Occurs s t := by
  rcases List.isPrefixOf_iff_prefix.mp h with ⟨u, hu⟩
  exact ⟨[], u, by simp [hu]⟩

theorem occurs_cons {s t : List Char} (c : Char) (h : Occurs s t) : Occurs (c :: s) t := by
  rcases h with ⟨a, b, hab⟩
  exact ⟨c :: a, b, by simp [hab]⟩

theorem not_occurs_replaceAll_id (s pat r : List Char) (h : ¬ Occurs s pat) :
    replaceAll s pat r = s := by
  have hpat : pat ≠ [] := by
    intro he
    exact h ⟨[], s, by simp [he]⟩
  induction s with
  | nil => exact replaceAll_nil pat r
  | cons c rest ih =>
    by_cases hp : pat.isPrefixOf (c :: rest)
    · exact absurd (occurs_of_isPrefixOf hp) h
    · rw [replaceAll_neg c rest pat r hpat hp, ih]
      intro ho
      exact h (occurs_cons c ho)

/-! ## Lemmas about occurrence counting -/

theorem countOccsAll_nil {t : List Char} (ht : t ≠ []) : countOccsAll [] t = 0 := by
  cases t with
  | nil => exact absurd rfl ht
  | cons c l => simp [countOccsAll, List.isPrefixOf]

theorem countOccsAll_cons (c : Char) (rest t : List Char) :
    countOccsAll (c :: rest) t =
      (if t.isPrefixOf (c :: rest) then 1 else 0) + countOccsAll rest t := rfl

theorem isPrefixOf_append {t u v : List Char} (h : t.isPrefixOf u) :
    t.isPrefixOf (u ++ v) :=
  List.isPrefixOf_iff_prefix.mpr
    ((List.isPrefixOf_iff_prefix.mp h).trans (List.prefix_append u v))

theorem occurs_of_count_pos {s t : List Char} (ht : t ≠ [])
    (h : 0 < countOccsAll s t) : Occurs s t := by
  induction s with
  | nil => rw [countOccsAll_nil ht] at h; exact absurd h (by simp)
  | cons c rest ih =>
    by_cases hp : t.isPrefixOf (c :: rest)
    · exact occurs_of_isPrefixOf hp
    · rw [countOccsAll_cons, if_neg hp] at h
      exact occurs_cons c (ih (by omega))

theorem count_pos_of_occurs {s t : List Char} (ht : t ≠ [])
    (h : Occurs s t) : 0 < countOccsAll s t := by
  rcases h with ⟨a, b, rfl⟩
  induction a with
  | nil =>
    simp only [List.nil_append]
    cases t with
    | nil => exact absurd rfl ht
    | cons c l =>
      rw [List.cons_append, countOccsAll_cons, if_pos]
      · omega
      · rw [← List.cons_append]
        exact isPrefixOf_append (by simp [List.isPrefixOf_iff_prefix])
  | cons c a' ih =>
    have hre : (c :: a') ++ t ++ b = c :: (a' ++ t ++ b) := by simp
    rw [hre, countOccsAll_cons]
    omega

theorem occursB_iff {s t : List Char} (ht : t ≠ []) :
    occursB s t = true ↔ Occurs s t := by
  constructor
  · intro h
    exact occurs_of_count_pos ht (by simpa [occursB] using h)
  · intro h
    simpa [occursB] using count_pos_of_occurs ht h

theorem count_le_append_left (A B t : List Char) :
    countOccsAll B t ≤ countOccsAll (A ++ B) t := by
  induction A with
  | nil => simp
  | cons c A' ih =>
    rw [List.cons_append, countOccsAll_cons]
    omega

theorem count_append_ge (A B t : List Char) (ht : t ≠ []) :
    countOccsAll A t + countOccsAll B t ≤ countOccsAll (A ++ B) t := by
  induction A with
  | nil => rw [countOccsAll_nil ht]; simp
  | cons c A' ih =>
    rw [List.cons_append, countOccsAll_cons, countOccsAll_cons]
    have hmono : (if t.isPrefixOf (c :: A') then 1 else 0) ≤
        (if t.isPrefixOf (c :: (A' ++ B)) then 1 else 0) := by
      by_cases hp : t.isPrefixOf (c :: A')
      · rw [if_pos hp, if_pos (by rw [← List.cons_append]; exact isPrefixOf_append hp)]
      · rw [if_neg hp]
        exact Nat.zero_le _
    omega

theorem count_self_append (t b : List Char) (ht : t ≠ []) :
    1 + countOccsAll b t ≤ countOccsAll (t ++ b) t := by
  cases t with
  | nil => exact absurd rfl ht
  | cons c l =>
    rw [List.cons_append, countOccsAll_cons, if_pos]
    · have := count_le_append_left l b (c :: l)
      omega
    · rw [← List.cons_append]
      exact isPrefixOf_append (by simp [List.isPrefixOf_iff_prefix])

theorem count_eq_count_drop (t : List Char) :
    ∀ k : Nat, ∀ s : List Char, (∀ p, p < k → ¬ t.isPrefixOf (s.drop p)) →
      countOccsAll s t = countOccsAll (s.drop k) t := by
  intro k
  induction k with
  | zero => intro s _; simp
  | succ k ih =>
    intro s h
    cases s with
    | nil => simp
    | cons c rest =>
      have h0 : ¬ t.isPrefixOf (c :: rest) := by
        have := h 0 (Nat.succ_pos k)
        simpa using this
      rw [countOccsAll_cons, if_neg h0, List.drop_succ_cons]
      have := ih rest (fun p hp => by
        have := h (p + 1) (by omega)
        simpa using this)
      omega

theorem replaceAll_single (a t b r : List Char) (ht : t ≠ [])
    (h1 : countOccsAll (a ++ (t ++ b)) t = 1) :
    replaceAll (a ++ (t ++ b)) t r = a ++ (r ++ b) := by
  induction a with
  | nil =>
    simp only [List.nil_append] at h1 ⊢
    have hb : countOccsAll b t = 0 := by
      have := count_self_append t b ht
      omega
    have hnb : ¬ Occurs b t := by
      intro ho
      have := count_pos_of_occurs ht ho
      omega
    have hp : t.isPrefixOf (t ++ b) :=
      isPrefixOf_append (by simp [List.isPrefixOf_iff_prefix])
    rw [replaceAll_pos (t ++ b) t r ht hp, List.drop_left,
      not_occurs_replaceAll_id b t r hnb]
  | cons c a' ih =>
    simp only [List.cons_append] at h1 ⊢
    rw [countOccsAll_cons] at h1
    have hocc : Occurs (a' ++ (t ++ b)) t := ⟨a', b, by simp⟩
    have hcnt : 0 < countOccsAll (a' ++ (t ++ b)) t := count_pos_of_occurs ht hocc
    have hp : ¬ t.isPrefixOf (c :: (a' ++ (t ++ b))) := by
      intro hp
      rw [if_pos hp] at h1
      omega
    rw [if_neg hp] at h1
    rw [replaceAll_neg c (a' ++ (t ++ b)) t r ht hp, ih (by omega)]

/-! ## Separator lemmas: a replacement whose boundary characters avoid the
token cannot take part in any token occurrence. -/

theorem contains_false_not_mem {t : List Char} {x : Char} (h : t.contains x = false) :
    x ∉ t := by
  intro hm
  have h2 := List.elem_eq_true_of_mem hm
  simp only [List.contains] at h
  rw [h2] at h
  exact absurd h (by decide)

theorem sepOKB_dest {r t : List Char} (h : sepOKB r t = true) :
    r ≠ [] ∧ occursB r t = false ∧
      (∀ x, r.head? = some x → t.contains x = false) ∧
      (∀ x, r.getLast? = some x → t.contains x = false) := by
  unfold sepOKB at h
  cases hh : r.head? with
  | none => rw [hh] at h; simp at h
  | some hd =>
    cases hl : r.getLast? with
    | none => rw [hh, hl] at h; simp at h
    | some lst =>
      rw [hh, hl] at h
      simp only [Bool.and_eq_true, Bool.not_eq_true'] at h
      refine ⟨?_, h.1.1, ?_, ?_⟩
      · intro he; subst he; simp at hh
      · intro x hx
        cases hx
        exact h.1.2
      · intro x hx
        cases hx
        exact h.2

theorem no_match_in_sep (r B t : List Char) (ht : t ≠ [])
    (hsep : sepOKB r t = true) :
    ∀ p, p < r.length → ¬ t.isPrefixOf ((r ++ B).drop p) := by
  obtain ⟨hne, hocc, _, hlastc⟩ := sepOKB_dest hsep
  intro p hp hpre
  have hd : (r ++ B).drop p = r.drop p ++ B :=
    List.drop_append_of_le_length (Nat.le_of_lt hp)
  rw [hd] at hpre
  have hpre' : t <+: (r.drop p ++ B) := List.isPrefixOf_iff_prefix.mp hpre
  by_cases hle : t.length ≤ (r.drop p).length
  · have heq : t = (r.drop p ++ B).take t.length := List.prefix_iff_eq_take.mp hpre'
    rw [List.take_append_of_le_length hle] at heq
    have htake : t <+: r.drop p := heq ▸ List.take_prefix t.length (r.drop p)
    rcases htake with ⟨z, hz⟩
    have hr : r = r.take p ++ t ++ z := by
      rw [List.append_assoc, hz, List.take_append_drop]
    have ho : Occurs r t := ⟨r.take p, z, hr⟩
    rw [(occursB_iff ht).mpr ho] at hocc
    cases hocc
  · push_neg at hle
    have hdl : (r.drop p).length = r.length - p := List.length_drop p r
    have hk1 : r.length - 1 - p < t.length := by omega
    have hk2 : r.length - 1 - p < (r.drop p).length := by omega
    have hk3 : r.length - 1 - p < (r.drop p ++ B).length := by
      simp only [List.length_append]; omega
    have hk4 : p + (r.length - 1 - p) < r.length := by omega
    have hch : t[r.length - 1 - p] = (r.drop p ++ B)[r.length - 1 - p] :=
      List.IsPrefix.getElem hpre' hk1
    have hch2 : (r.drop p ++ B)[r.length - 1 - p] = (r.drop p)[r.length - 1 - p] :=
      List.getElem_append_left hk2
    have hch3 : (r.drop p)[r.length - 1 - p] = r[p + (r.length - 1 - p)] :=
      List.getElem_drop r
    have hpk : p + (r.length - 1 - p) = r.length - 1 := by omega
    have hlt : r.length - 1 < r.length := by
      have := length_pos_of_ne_nil hne
      omega
    have hlast : r.getLast? = some (r[r.length - 1]) := by
      rw [List.getLast?_eq_getElem?]
      exact (List.getElem?_eq_some_getElem_iff r (r.length - 1) hlt).mpr trivial
    have hc := hlastc _ hlast
    have hmem : t[r.length - 1 - p] ∈ t := List.getElem_mem hk1
    rw [hch, hch2, hch3] at hmem
    have heq2 : r[p + (r.length - 1 - p)] = r[r.length - 1] := by
      congr 1
    rw [heq2] at hmem
    exact absurd hmem (contains_false_not_mem hc)

theorem count_sep_append (r B t : List Char) (ht : t ≠ [])
    (hsep : sepOKB r t = true) :
    countOccsAll (r ++ B) t = countOccsAll B t := by
  rw [count_eq_count_drop t r.length (r ++ B) (no_match_in_sep r B t ht hsep),
    List.drop_left]

theorem count_split (A r B t : List Char) (ht : t ≠ [])
    (hsep : sepOKB r t = true) :
    countOccsAll (A ++ (r ++ B)) t = countOccsAll A t + countOccsAll B t := by
  obtain ⟨hne, _, hheadc, _⟩ := sepOKB_dest hsep
  induction A with
  | nil =>
    rw [List.nil_append, count_sep_append r B t ht hsep, countOccsAll_nil ht]
    omega
  | cons c A' ih =>
    rw [List.cons_append, countOccsAll_cons, countOccsAll_cons, ih]
    have hiff : t.isPrefixOf (c :: (A' ++ (r ++ B))) ↔ t.isPrefixOf (c :: A') := by
      constructor
      · intro hpre
        by_cases hle : t.length ≤ (c :: A').length
        · have heq : t = ((c :: A') ++ (r ++ B)).take t.length :=
            List.prefix_iff_eq_take.mp (List.isPrefixOf_iff_prefix.mp
              (by rwa [List.cons_append]))
          rw [List.take_append_of_le_length hle] at heq
          exact List.isPrefixOf_iff_prefix.mpr (heq ▸ List.take_prefix t.length (c :: A'))
        · exfalso
          push_neg at hle
          have hpre' : t <+: ((c :: A') ++ (r ++ B)) :=
            List.isPrefixOf_iff_prefix.mp (by rwa [List.cons_append])
          have hm : (c :: A').length < ((c :: A') ++ (r ++ B)).length := by
            have := length_pos_of_ne_nil hne
            simp only [List.length_append]
            omega
          have hch : t[(c :: A').length] = ((c :: A') ++ (r ++ B))[(c :: A').length] :=
            List.IsPrefix.getElem hpre' hle
          have hrb : 0 < (r ++ B).length := by
            simp only [List.length_append]
            have := length_pos_of_ne_nil hne
            omega
          have hch2 : ((c :: A') ++ (r ++ B))[(c :: A').length] = (r ++ B)[0] := by
            rw [List.getElem_append_right (Nat.le_refl (c :: A').length)]
            congr 1
            omega
          have hr0 : 0 < r.length := length_pos_of_ne_nil hne
          have hch3 : (r ++ B)[0] = r[0] := List.getElem_append_left hr0
          have hhead : r.head? = some (r[0]) := by
            cases r with
            | nil => simp at hr0
            | cons x xs => rfl
          have hc := hheadc _ hhead
          have hmem : t[(c :: A').length] ∈ t := List.getElem_mem hle
          rw [hch, hch2, hch3] at hmem
          exact absurd hmem (contains_false_not_mem hc)
      · intro hpre
        rw [← List.cons_append]
        exact isPrefixOf_append hpre
    by_cases hp : t.isPrefixOf (c :: A')
    · rw [if_pos hp, if_pos (hiff.mpr hp)]
      omega
    · rw [if_neg hp, if_neg (fun hx => hp (hiff.mp hx))]
      omega

/-! ## Interleaving lemmas -/

theorem occurs_trans {x c u : List Char} (h1 : Occurs c u) (h2 : Occurs x c) :
    Occurs x u := by
  rcases h1 with ⟨a, b, rfl⟩
  rcases h2 with ⟨a2, b2, rfl⟩
  exact ⟨a2 ++ a, b ++ b2, by simp⟩

theorem occurs_refl (u : List Char) : Occurs u u := ⟨[], [], by simp⟩

theorem interleave_cons_merge (u v : List Char) (cs ts : List (List Char)) :
    interleave ((u ++ v) :: cs) ts = u ++ interleave (v :: cs) ts := by
  cases ts with
  | nil => simp [interleave]
  | cons t ts' => simp [interleave]

theorem interleave_chunk_occurs :
    ∀ (ts cs : List (List Char)), cs.length = ts.length + 1 →
      ∀ c ∈ cs, Occurs (interleave cs ts) c := by
  intro ts
  induction ts with
  | nil =>
    intro cs hlen c hc
    match cs, hlen with
    | [c0], _ =>
      simp only [List.mem_singleton] at hc
      subst hc
      exact occurs_refl c
  | cons t ts' ih =>
    intro cs hlen c hc
    match cs, hlen with
    | c0 :: cs', hlen =>
      simp only [List.length_cons, Nat.succ.injEq] at hlen
      simp only [List.mem_cons] at hc
      rcases hc with rfl | hc
      · exact ⟨[], t ++ interleave cs' ts', by simp [interleave]⟩
      · have := ih cs' (by simpa using hlen) c hc
        rcases this with ⟨a, b, hab⟩
        exact ⟨c0 ++ t ++ a, b, by simp [interleave, hab]⟩

theorem interleave_token_occurs :
    ∀ (ts cs : List (List Char)), cs.length = ts.length + 1 →
      ∀ x ∈ ts, Occurs (interleave cs ts) x := by
  intro ts
  induction ts with
  | nil => intro cs _ x hx; simp at hx
  | cons t ts' ih =>
    intro cs hlen x hx
    match cs, hlen with
    | c0 :: cs', hlen =>
      simp only [List.length_cons, Nat.succ.injEq] at hlen
      simp only [List.mem_cons] at hx
      rcases hx with rfl | hx
      · exact ⟨c0, interleave cs' ts', by simp [interleave]⟩
      · have := ih cs' (by simpa using hlen) x hx
        rcases this with ⟨a, b, hab⟩
        exact ⟨c0 ++ t ++ a, b, by simp [interleave, hab]⟩

theorem interleave_replace :
    ∀ (tsL cs : List (List Char)) (x : List Char) (tsR : List (List Char)),
      cs.length = (tsL ++ x :: tsR).length + 1 →
      ∃ A B, interleave cs (tsL ++ x :: tsR) = A ++ (x ++ B) ∧
        ∀ rep : List Char, ∃ cs₂ : List (List Char),
          cs₂.length = (tsL ++ tsR).length + 1 ∧
          A ++ (rep ++ B) = interleave cs₂ (tsL ++ tsR) ∧
          (∀ c ∈ cs, ∃ c₂ ∈ cs₂, Occurs c₂ c) ∧
          (∃ c₂ ∈ cs₂, Occurs c₂ rep) := by
  intro tsL
  induction tsL with
  | nil =>
    intro cs x tsR hlen
    match cs, hlen with
    | c0 :: c1 :: cs'', hlen =>
      simp only [List.nil_append, List.length_cons] at hlen ⊢
      refine ⟨c0, interleave (c1 :: cs'') tsR, by simp [interleave], ?_⟩
      intro rep
      refine ⟨(c0 ++ (rep ++ c1)) :: cs'', ?_, ?_, ?_, ?_⟩
      · simpa using hlen
      · rw [interleave_cons_merge, interleave_cons_merge]
      · intro c hc
        simp only [List.mem_cons] at hc
        rcases hc with rfl | rfl | hc
        · exact ⟨c ++ (rep ++ c1), by simp, ⟨[], rep ++ c1, by simp⟩⟩
        · exact ⟨c0 ++ (rep ++ c), by simp, ⟨c0 ++ rep, [], by simp⟩⟩
        · exact ⟨c, by simp [hc], occurs_refl c⟩
      · exact ⟨c0 ++ (rep ++ c1), by simp, ⟨c0, c1, by simp⟩⟩
  | cons y tsL' ih =>
    intro cs x tsR hlen
    match cs, hlen with
    | c0 :: cs', hlen =>
      simp only [List.cons_append, List.length_cons, Nat.succ.injEq] at hlen
      obtain ⟨A', B', hEq, hRep⟩ := ih cs' x tsR (by simpa using hlen)
      refine ⟨c0 ++ (y ++ A'), B', ?_, ?_⟩
      · show interleave (c0 :: cs') (y :: (tsL' ++ x :: tsR)) = _
        simp [interleave, hEq]
      · intro rep
        obtain ⟨cs₂', hlen₂, hEq₂, hChunk, hRepIn⟩ := hRep rep
        refine ⟨c0 :: cs₂', by simpa using hlen₂, ?_, ?_, ?_⟩
        · show _ = interleave (c0 :: cs₂') (y :: (tsL' ++ tsR))
          simp [interleave, ← hEq₂]
        · intro c hc
          simp only [List.mem_cons] at hc
          rcases hc with rfl | hc
          · exact ⟨c, by simp, occurs_refl c⟩
          · obtain ⟨c₂, hc₂, ho⟩ := hChunk c hc
            exact ⟨c₂, by simp [hc₂], ho⟩
        · obtain ⟨c₂, hc₂, ho⟩ := hRepIn
          exact ⟨c₂, by simp [hc₂], ho⟩

/-! ## The restoration engine theorem

If the protected text is an interleaving of clean chunks and the generated
placeholders, each placeholder occurs exactly once, and every replacement
is a separator for every placeholder, then restoring all pairs eliminates
every placeholder and embeds every replacement verbatim. -/

theorem foldRepl_cons (s : List Char) (p : List Char × List Char)
    (rest : List (List Char × List Char)) :
    foldRepl s (p :: rest) = foldRepl (replaceAll s p.1 p.2) rest := rfl

theorem foldRepl_engine :
    ∀ (todo : List (List Char × List Char)) (doneT R : List (List Char))
      (cs ts : List (List Char)) (s : List Char),
      s = interleave cs ts →
      cs.length = ts.length + 1 →
      ts.Perm (todo.map Prod.fst) →
      (∀ p ∈ todo, p.1 ≠ []) →
      (∀ p ∈ todo, countOccsAll s p.1 = 1) →
      (∀ p ∈ todo, ∀ q ∈ todo, sepOKB p.2 q.1 = true) →
      (∀ t0 ∈ doneT, t0 ≠ []) →
      (∀ t0 ∈ doneT, countOccsAll s t0 = 0) →
      (∀ p ∈ todo, ∀ t0 ∈ doneT, sepOKB p.2 t0 = true) →
      (∀ rep ∈ R, ∃ c ∈ cs, Occurs c rep) →
      (∀ t0 ∈ doneT, countOccsAll (foldRepl s todo) t0 = 0) ∧
      (∀ p ∈ todo, countOccsAll (foldRepl s todo) p.1 = 0) ∧
      (∀ rep ∈ R, Occurs (foldRepl s todo) rep) ∧
      (∀ p ∈ todo, Occurs (foldRepl s todo) p.2) := by
  intro todo
  induction todo with
  | nil =>
    intro doneT R cs ts s hs hlen hperm hne hone hpair hdne hdcnt hdsep hR
    refine ⟨fun t0 ht0 => hdcnt t0 ht0, fun p hp => by simp at hp, ?_,
      fun p hp => by simp at hp⟩
    intro rep hrep
    obtain ⟨c, hc, ho⟩ := hR rep hrep
    have hoc := interleave_chunk_occurs ts cs hlen c hc
    rw [← hs] at hoc
    exact occurs_trans ho hoc
  | cons p rest ih =>
    intro doneT R cs ts s hs hlen hperm hne hone hpair hdne hdcnt hdsep hR
    have hp0 : p ∈ p :: rest := by simp
    have hppos : p.1 ∈ ts := by
      rw [hperm.mem_iff]
      simp
    obtain ⟨tsL, tsR, rfl⟩ := List.append_of_mem hppos
    obtain ⟨A, B, hEq, hRep⟩ := interleave_replace tsL cs p.1 tsR hlen
    obtain ⟨cs₂, hlen₂, hEq₂, hChunk, hRepIn⟩ := hRep p.2
    have hsAB : s = A ++ (p.1 ++ B) := by rw [hs, hEq]
    have hpne : p.1 ≠ [] := hne p hp0
    have hcnt1 : countOccsAll (A ++ (p.1 ++ B)) p.1 = 1 := by
      rw [← hsAB]
      exact hone p hp0
    have hrepl : replaceAll s p.1 p.2 = A ++ (p.2 ++ B) := by
      rw [hsAB]
      exact replaceAll_single A p.1 B p.2 hpne hcnt1
    have hub : ∀ t0 : List Char, t0 ≠ [] →
        countOccsAll A t0 + countOccsAll B t0 ≤ countOccsAll s t0 := by
      intro t0 ht0
      rw [hsAB]
      have h1 := count_le_append_left p.1 B t0
      have h2 := count_append_ge A (p.1 ++ B) t0 ht0
      omega
    have hsplit : ∀ t0 : List Char, t0 ≠ [] → sepOKB p.2 t0 = true →
        countOccsAll (A ++ (p.2 ++ B)) t0 = countOccsAll A t0 + countOccsAll B t0 :=
      fun t0 ht0 hsep => count_split A p.2 B t0 ht0 hsep
    have hperm' : (tsL ++ tsR).Perm (rest.map Prod.fst) := by
      have h1 : (tsL ++ p.1 :: tsR).Perm (p.1 :: (tsL ++ tsR)) := List.perm_middle
      have h2 : (p.1 :: (tsL ++ tsR)).Perm ((p :: rest).map Prod.fst) :=
        h1.symm.trans hperm
      simp only [List.map_cons] at h2
      exact h2.cons_inv
    have hone' : ∀ q ∈ rest, countOccsAll (A ++ (p.2 ++ B)) q.1 = 1 := by
      intro q hq
      have hqmem : q ∈ p :: rest := by simp [hq]
      have hqne : q.1 ≠ [] := hne q hqmem
      rw [hsplit q.1 hqne (hpair p hp0 q hqmem)]
      have hup : countOccsAll A q.1 + countOccsAll B q.1 ≤ 1 := by
        have := hub q.1 hqne
        rw [hone q hqmem] at this
        exact this
      have hqin : q.1 ∈ tsL ++ tsR := by
        rw [hperm'.mem_iff]
        exact List.mem_map_of_mem Prod.fst hq
      have hoq := interleave_token_occurs (tsL ++ tsR) cs₂ hlen₂ q.1 hqin
      rw [← hEq₂] at hoq
      have hlow := count_pos_of_occurs hqne hoq
      rw [hsplit q.1 hqne (hpair p hp0 q hqmem)] at hlow
      omega
    have hdcnt' : ∀ t0 ∈ doneT ++ [p.1], countOccsAll (A ++ (p.2 ++ B)) t0 = 0 := by
      intro t0 ht0
      rcases List.mem_append.mp ht0 with hin | hin
      · have ht0ne := hdne t0 hin
        rw [hsplit t0 ht0ne (hdsep p hp0 t0 hin)]
        have := hub t0 ht0ne
        rw [hdcnt t0 hin] at this
        omega
      · simp only [List.mem_singleton] at hin
        subst hin
        rw [hsplit p.1 hpne (hpair p hp0 p hp0)]
        have h1 := count_append_ge A (p.1 ++ B) p.1 hpne
        have h2 := count_self_append p.1 B hpne
        rw [← hsAB] at h1
        rw [hone p hp0] at h1
        omega
    have hR' : ∀ rep ∈ R ++ [p.2], ∃ c ∈ cs₂, Occurs c rep := by
      intro rep hrep
      rcases List.mem_append.mp hrep with hin | hin
      · obtain ⟨c, hc, ho⟩ := hR rep hin
        obtain ⟨c₂, hc₂, ho₂⟩ := hChunk c hc
        exact ⟨c₂, hc₂, occurs_trans ho ho₂⟩
      · simp only [List.mem_singleton] at hin
        subst hin
        exact hRepIn
    obtain ⟨m1, m2, m3, m4⟩ := ih (doneT ++ [p.1]) (R ++ [p.2]) cs₂ (tsL ++ tsR)
      (A ++ (p.2 ++ B)) hEq₂ hlen₂ hperm'
      (fun q hq => hne q (by simp [hq]))
      hone'
      (fun q hq q' hq' => hpair q (by simp [hq]) q' (by simp [hq']))
      (fun t0 ht0 => by
        rcases List.mem_append.mp ht0 with hin | hin
        · exact hdne t0 hin
        · simp only [List.mem_singleton] at hin; subst hin; exact hpne)
      hdcnt'
      (fun q hq t0 ht0 => by
        rcases List.mem_append.mp ht0 with hin | hin
        · exact hdsep q (by simp [hq]) t0 hin
        · simp only [List.mem_singleton] at hin
          subst hin
          exact hpair q (by simp [hq]) p hp0)
      hR'
    have hfold : foldRepl s (p :: rest) = foldRepl (A ++ (p.2 ++ B)) rest := by
      rw [foldRepl_cons, hrepl]
    refine ⟨?_, ?_, ?_, ?_⟩
    · intro t0 ht0
      rw [hfold]
      exact m1 t0 (List.mem_append.mpr (Or.inl ht0))
    · intro q hq
      rw [hfold]
      rcases List.mem_cons.mp hq with rfl | hin
      · exact m1 q.1 (List.mem_append.mpr (Or.inr (by simp)))
      · exact m2 q hin
    · intro rep hrep
      rw [hfold]
      exact m3 rep (List.mem_append.mpr (Or.inl hrep))
    · intro q hq
      rw [hfold]
      rcases List.mem_cons.mp hq with rfl | hin
      · exact m3 q.2 (List.mem_append.mpr (Or.inr (by simp)))
      · exact m4 q hin

/-! ## Connecting the restoration code to the engine -/

theorem restoreMath_eq_foldRepl (h : List Char) (mbs : List String) :
    restoreMathBlocksL h (mbs.map String.data) =
      foldRepl h (mbs.enum.map (fun p => (mathTok p.1, p.2.data))) := by
  unfold restoreMathBlocksL foldRepl
  rw [List.enum_map, List.foldl_map, List.foldl_map]
  rfl

theorem restoreCode_eq_foldRepl (h : List Char) (cbs : List String) :
    restoreCodeBlocksL h (cbs.map String.data) =
      foldRepl h (cbs.enum.map (fun p => (codeTok p.1, codeBlockHtml p.2.data))) := by
  unfold restoreCodeBlocksL foldRepl
  rw [List.enum_map, List.foldl_map, List.foldl_map]
  rfl

theorem restoreBlocks_eq_foldRepl (html : String) (mbs cbs : List String) :
    (restoreBlocks html mbs cbs).data = foldRepl html.data (tokenPairs mbs cbs) := by
  show restoreCodeBlocksL (restoreMathBlocksL html.data (mbs.map String.data))
      (cbs.map String.data) = _
  rw [restoreMath_eq_foldRepl, restoreCode_eq_foldRepl]
  unfold tokenPairs foldRepl
  rw [List.foldl_append]

theorem mathTok_ne_nil (i : Nat) : mathTok i ≠ [] := by
  simp [mathTok]

theorem codeTok_ne_nil (i : Nat) : codeTok i ≠ [] := by
  simp [codeTok]

theorem tokenPairs_fst_ne_nil (mbs cbs : List String) :
    ∀ p ∈ tokenPairs mbs cbs, p.1 ≠ [] := by
  intro p hp
  rcases List.mem_append.mp hp with hin | hin
  · obtain ⟨q, _, rfl⟩ := List.mem_map.mp hin
    exact mathTok_ne_nil q.1
  · obtain ⟨q, _, rfl⟩ := List.mem_map.mp hin
    exact codeTok_ne_nil q.1

/-! ## Lemmas for the plot converter claims -/

theorem not_occurs_of_occursB_false {s t : List Char} (ht : t ≠ [])
    (h : occursB s t = false) : ¬ Occurs s t := by
  intro ho
  rw [(occursB_iff ht).mpr ho] at h
  exact absurd h (by decide)

theorem reSubGAux_id (m : List Char → Option (List Char × List Char)) :
    ∀ fuel : Nat, ∀ s : List Char, (∀ u, u <:+ s → m u = none) →
      reSubGAux m fuel s = s := by
  intro fuel
  induction fuel with
  | zero => intro s _; rfl
  | succ f ih =>
    intro s h
    cases s with
    | nil => rfl
    | cons c rest =>
      have h0 : m (c :: rest) = none := h (c :: rest) (List.suffix_refl _)
      simp only [reSubGAux, h0]
      rw [ih rest (fun u hu => h u (hu.trans (List.suffix_cons c rest)))]

theorem reSubG_id (m : List Char → Option (List Char × List Char)) (s : List Char)
    (h : ∀ u, u <:+ s → m u = none) : reSubG m s = s :=
  reSubGAux_id m s.length s h

theorem replaceAll_length_le_aux :
    ∀ n : Nat, ∀ s pat r : List Char, s.length ≤ n → r.length ≤ pat.length →
      (replaceAll s pat r).length ≤ s.length := by
  intro n
  induction n with
  | zero =>
    intro s pat r hs _
    have : s = [] := List.length_eq_zero.mp (Nat.le_zero.mp hs)
    subst this
    rw [replaceAll_nil]
  | succ k ih =>
    intro s pat r hs hr
    by_cases hpat : pat = []
    · simp [replaceAll, hpat]
    · cases s with
      | nil => rw [replaceAll_nil]
      | cons c rest =>
        have hplen : 1 ≤ pat.length := length_pos_of_ne_nil hpat
        by_cases hp : pat.isPrefixOf (c :: rest)
        · rw [replaceAll_pos (c :: rest) pat r hpat hp]
          have hple : pat.length ≤ (c :: rest).length :=
            (List.isPrefixOf_iff_prefix.mp hp).length_le
          have hdl : ((c :: rest).drop pat.length).length =
              (c :: rest).length - pat.length := List.length_drop _ _
          have hrec := ih ((c :: rest).drop pat.length) pat r
            (by rw [hdl]; simp only [List.length_cons] at hs ⊢; omega) hr
          rw [List.length_append]
          rw [hdl] at hrec
          simp only [List.length_cons] at hs hple hrec ⊢
          omega
        · rw [replaceAll_neg c rest pat r hpat hp]
          have hrec := ih rest pat r (by simp only [List.length_cons] at hs; omega) hr
          simp only [List.length_cons]
          omega

theorem replaceAll_length_le (s pat r : List Char) (hr : r.length ≤ pat.length) :
    (replaceAll s pat r).length ≤ s.length :=
  replaceAll_length_le_aux s.length s pat r (Nat.le_refl _) hr

theorem replaceAll_length_lt_aux :
    ∀ n : Nat, ∀ s pat r : List Char, s.length ≤ n → r.length < pat.length →
      Occurs s pat → (replaceAll s pat r).length < s.length := by
  intro n
  induction n with
  | zero =>
    intro s pat r hs hr ho
    have hsn : s = [] := List.length_eq_zero.mp (Nat.le_zero.mp hs)
    subst hsn
    rcases ho with ⟨a, b, hab⟩
    have : pat.length = 0 := by
      have := congrArg List.length hab
      simp [List.length_append] at this
      omega
    omega
  | succ k ih =>
    intro s pat r hs hr ho
    have hpat : pat ≠ [] := by
      intro he
      subst he
      simp at hr
    cases s with
    | nil =>
      rcases ho with ⟨a, b, hab⟩
      have := congrArg List.length hab
      simp [List.length_append] at this
      omega
    | cons c rest =>
      have hplen : 1 ≤ pat.length := length_pos_of_ne_nil hpat
      by_cases hp : pat.isPrefixOf (c :: rest)
      · rw [replaceAll_pos (c :: rest) pat r hpat hp]
        have hple : pat.length ≤ (c :: rest).length :=
          (List.isPrefixOf_iff_prefix.mp hp).length_le
        have hrec := replaceAll_length_le ((c :: rest).drop pat.length) pat r
          (Nat.le_of_lt hr)
        simp only [List.length_append, List.length_drop, List.length_cons] at *
        omega
      · rw [replaceAll_neg c rest pat r hpat hp]
        have horest : Occurs rest pat := by
          rcases ho with ⟨a, b, hab⟩
          cases a with
          | nil =>
            exfalso
            apply hp
            rw [List.nil_append] at hab
            exact List.isPrefixOf_iff_prefix.mpr ⟨b, hab.symm⟩
          | cons c' a' =>
            have hinj : c' :: (a' ++ pat ++ b) = c :: rest := by
              simpa using hab.symm
            have h2 : a' ++ pat ++ b = rest := by
              injection hinj
            exact ⟨a', b, h2.symm⟩
        have hrec := ih rest pat r (by simp only [List.length_cons] at hs; omega) hr horest
        simp only [List.length_cons]
        omega

theorem replaceAll_length_lt (s pat r : List Char) (hr : r.length < pat.length)
    (ho : Occurs s pat) : (replaceAll s pat r).length < s.length :=
  replaceAll_length_lt_aux s.length s pat r (Nat.le_refl _) hr ho

theorem cleanHtmlEntitiesL_eq (s : List Char) :
    cleanHtmlEntitiesL s =
      replaceAll (replaceAll (replaceAll (replaceAll s ("&nbsp;").data (" ").data)
        ("&amp;").data ("&").data) ("&lt;").data ("<").data) ("&gt;").data (">").data := rfl

theorem clean_length_lt (s : List Char) (h : containsEntityB s = true) :
    (cleanHtmlEntitiesL s).length < s.length := by
  have hle2 : ∀ u : List Char, (replaceAll u ("&amp;").data ("&").data).length ≤ u.length :=
    fun u => replaceAll_length_le u _ _ (by decide)
  have hle3 : ∀ u : List Char, (replaceAll u ("&lt;").data ("<").data).length ≤ u.length :=
    fun u => replaceAll_length_le u _ _ (by decide)
  have hle4 : ∀ u : List Char, (replaceAll u ("&gt;").data (">").data).length ≤ u.length :=
    fun u => replaceAll_length_le u _ _ (by decide)
  rw [cleanHtmlEntitiesL_eq]
  by_cases h1 : occursB s ("&nbsp;").data
  · have hlt1 : (replaceAll s ("&nbsp;").data (" ").data).length < s.length :=
      replaceAll_length_lt s _ _ (by decide) ((occursB_iff (by decide)).mp h1)
    have := hle2 (replaceAll s ("&nbsp;").data (" ").data)
    have := hle3 (replaceAll (replaceAll s ("&nbsp;").data (" ").data) ("&amp;").data ("&").data)
    have := hle4 (replaceAll (replaceAll (replaceAll s ("&nbsp;").data (" ").data) ("&amp;").data ("&").data) ("&lt;").data ("<").data)
    omega
  · have hid1 : replaceAll s ("&nbsp;").data (" ").data = s :=
      not_occurs_replaceAll_id s _ _ (not_occurs_of_occursB_false (by decide)
        (Bool.not_eq_true _ ▸ (by simpa using h1)))
    rw [hid1]
    by_cases h2 : occursB s ("&amp;").data
    · have hlt2 : (replaceAll s ("&amp;").data ("&").data).length < s.length :=
        replaceAll_length_lt s _ _ (by decide) ((occursB_iff (by decide)).mp h2)
      have := hle3 (replaceAll s ("&amp;").data ("&").data)
      have := hle4 (replaceAll (replaceAll s ("&amp;").data ("&").data) ("&lt;").data ("<").data)
      omega
    · have hid2 : replaceAll s ("&amp;").data ("&").data = s :=
        not_occurs_replaceAll_id s _ _ (not_occurs_of_occursB_false (by decide)
          (by simpa using h2))
      rw [hid2]
      by_cases h3 : occursB s ("&lt;").data
      · have hlt3 : (replaceAll s ("&lt;").data ("<").data).length < s.length :=
          replaceAll_length_lt s _ _ (by decide) ((occursB_iff (by decide)).mp h3)
        have := hle4 (replaceAll s ("&lt;").data ("<").data)
        omega
      · have hid3 : replaceAll s ("&lt;").data ("<").data = s :=
          not_occurs_replaceAll_id s _ _ (not_occurs_of_occursB_false (by decide)
            (by simpa using h3))
        rw [hid3]
        have h4 : occursB s ("&gt;").data = true := by
          unfold containsEntityB entityList at h
          simp only [List.any_eq_true] at h
          rcases h with ⟨e, he, hocc⟩
          simp only [List.mem_cons, List.mem_nil_iff, or_false] at he
          rcases he with rfl | rfl | rfl | rfl
          · rw [hocc] at h1; exact absurd h1 (by simp)
          · rw [hocc] at h2; exact absurd h2 (by simp)
          · rw [hocc] at h3; exact absurd h3 (by simp)
          · exact hocc
        exact replaceAll_length_lt s _ _ (by decide) ((occursB_iff (by decide)).mp h4)

theorem clean_id_of_no_entity (s : List Char) (h : containsEntityB s = false) :
    cleanHtmlEntitiesL s = s := by
  unfold containsEntityB entityList at h
  simp only [List.any_eq_false] at h
  have h1 := h ("&nbsp;").data (by simp)
  have h2 := h ("&amp;").data (by simp)
  have h3 := h ("&lt;").data (by simp)
  have h4 := h ("&gt;").data (by simp)
  rw [cleanHtmlEntitiesL_eq]
  rw [not_occurs_replaceAll_id s _ _ (not_occurs_of_occursB_false (by decide)
    (Bool.eq_false_iff.mpr h1))]
  rw [not_occurs_replaceAll_id s _ _ (not_occurs_of_occursB_false (by decide)
    (Bool.eq_false_iff.mpr h2))]
  rw [not_occurs_replaceAll_id s _ _ (not_occurs_of_occursB_false (by decide)
    (Bool.eq_false_iff.mpr h3))]
  rw [not_occurs_replaceAll_id s _ _ (not_occurs_of_occursB_false (by decide)
    (Bool.eq_false_iff.mpr h4))]

theorem noPlotMatch_reSubG_id (u : List Char) (h : noPlotMatchB u = true) :
    reSubG plotCmdMatcher u = u := by
  apply reSubG_id
  intro v hv
  unfold noPlotMatchB at h
  rw [List.all_eq_true] at h
  have hm := h v ((List.mem_tails v u).mpr hv)
  unfold plotCmdMatcher
  cases ht : tryMatchPlot v with
  | none => rfl
  | some m => rw [ht] at hm; exact absurd hm (by simp)

/-! ## Lemma for C2: disallowed syntax always raises inside the walker -/

theorem badExpr_errors :
    ∀ fuel : Nat,
      (∀ t : PyExpr, badExprF fuel t = true → ∃ e, evalAstF fuel t = .error e) ∧
      (∀ args : List PyExpr, badArgsF fuel args = true →
        ∃ e, evalArgsF fuel args = .error e) := by
  intro fuel
  induction fuel with
  | zero =>
    constructor
    · intro t h; simp [badExprF] at h
    · intro args h
      cases args <;> simp [badArgsF] at h
  | succ f ih =>
    obtain ⟨ihE, ihA⟩ := ih
    constructor
    · intro t hbad
      cases t with
      | const q => simp [badExprF] at hbad
      | constBool b => simp [badExprF] at hbad
      | constNone => exact ⟨.unsupportedConst, rfl⟩
      | name id =>
        simp only [badExprF, Bool.not_eq_true', Bool.or_eq_false_iff, beq_eq_false_iff_ne,
          ne_eq] at hbad
        refine ⟨.unsupportedVariable, ?_⟩
        simp [evalAstF, hbad.1, hbad.2]
      | binop op l r =>
        simp only [badExprF, Bool.or_eq_true] at hbad
        rcases hbad with hl | hr
        · obtain ⟨e, he⟩ := ihE l hl
          exact ⟨e, by simp [evalAstF, he]⟩
        · cases hres : evalAstF f l with
          | error e => exact ⟨e, by simp [evalAstF, hres]⟩
          | ok x =>
            obtain ⟨e, he⟩ := ihE r hr
            exact ⟨e, by simp [evalAstF, hres, he]⟩
      | unaryop op e0 =>
        simp only [badExprF] at hbad
        obtain ⟨e, he⟩ := ihE e0 hbad
        exact ⟨e, by simp [evalAstF, he]⟩
      | call f0 args kw =>
        simp only [badExprF, Bool.or_eq_true] at hbad
        cases f0 with
        | name fn =>
          by_cases hall : allowedFunctions.contains fn
          · have hmem : fn ∈ allowedFunctions := by simpa using hall
            have hbad2 : kw = true ∨ badArgsF f args = true := by
              rcases hbad with (hh | hh) | hh
              · simp [hall] at hh
                exact absurd hmem hh
              · exact Or.inl hh
              · exact Or.inr hh
            cases hargs : evalArgsF f args with
            | error e => exact ⟨e, by simp [evalAstF, hmem, hargs]⟩
            | ok vs =>
              rcases hbad2 with hkw | hba
              · exact ⟨.keywordArgs, by simp [evalAstF, hmem, hargs, hkw]⟩
              · obtain ⟨e, he⟩ := ihA args hba
                rw [he] at hargs
                exact absurd hargs (by simp)
          · have hnm : fn ∉ allowedFunctions := by simpa using hall
            exact ⟨.unsupportedFunction, by simp [evalAstF, hnm]⟩
        | const q => exact ⟨.nonSimpleCall, by simp [evalAstF]⟩
        | constBool b => exact ⟨.nonSimpleCall, by simp [evalAstF]⟩
        | constNone => exact ⟨.nonSimpleCall, by simp [evalAstF]⟩
        | binop op l r => exact ⟨.nonSimpleCall, by simp [evalAstF]⟩
        | unaryop op e0 => exact ⟨.nonSimpleCall, by simp [evalAstF]⟩
        | call g as k2 => exact ⟨.nonSimpleCall, by simp [evalAstF]⟩
    · intro args hbad
      cases args with
      | nil => simp [badArgsF] at hbad
      | cons a rest =>
        simp only [badArgsF, Bool.or_eq_true] at hbad
        rcases hbad with ha | hrest
        · obtain ⟨e, he⟩ := ihE a ha
          exact ⟨e, by simp [evalArgsF, he]⟩
        · cases hres : evalAstF f a with
          | error e => exact ⟨e, by simp [evalArgsF, hres]⟩
          | ok v =>
            obtain ⟨e, he⟩ := ihA rest hrest
            exact ⟨e, by simp [evalArgsF, hres, he]⟩

/-! ## Claim theorems -/

/-- C1: the claim says that when at least one diagram container exists and
no drawable primitive appears in any diagram's SVG before the diagram
timeout, the render call terminates with a fatal raised render error.  The
code violates this: in `PageRenderer._wait_for_tikz` the
`wait_for_function` timeout (and even the function's own deliberate
`raise RenderError`) is caught by the enclosing `except Exception` handler,
logged as a warning, and the render proceeds to take and save the
screenshot.  This theorem evaluates the modelled render pipeline at the
failing scenario (one `.tikz-diagram` container, the drawable-primitive
poll never turning truthy before the timeout) and shows the outcome is a
successful screenshot with a warning, never a raised render error. -/
theorem c1_diagram_timeout_swallowed :
    doRender ⟨false, true, 1, TikzWaitOutcome.timeout, false⟩ =
      RenderOutcomeM.screenshot (["TikZ渲染检查: TimeoutError"]) ∧
    ∀ msg : String,
      doRender ⟨false, true, 1, TikzWaitOutcome.timeout, false⟩ ≠
        RenderOutcomeM.renderError msg :=
  ⟨rfl, fun _ h => by simp [doRender, waitForTikzWarnings] at h⟩

/-- C2 counterexample: the claim says a call whose argument list differs
from the named function's single fixed-arity list yields the NaN sentinel.
But `math.log` also accepts an optional base argument, so
`safe_eval_math("log(8,2)")` parses to a two-argument `log` call and
returns a value (CPython returns `3.0`), not NaN. -/
theorem c2_counterexample_log_base :
    pyParse ("log(8,2)") = some (PyExpr.call (PyExpr.name ("log"))
      [PyExpr.const ⟨8, 1⟩, PyExpr.const ⟨2, 1⟩] false) ∧
    safe_eval_math ("log(8,2)") ≠ none :=
  ⟨rfl, by decide⟩

/-- C2 amended: `safe_eval_math` raises no exception (every raised Python
exception is absorbed by its `try/except` and modelled as an `Except`
error mapped to the NaN sentinel `none`), and for every input that fails
to parse or whose expression uses an identifier other than `pi`/`e`, a
callee that is not a plain allow-listed name, keyword arguments, or a
non-numeric constant (`badParse`), it returns the NaN sentinel.  A call
with a different argument-list length returns NaN only when the
underlying `math` function rejects it; `log` with an explicit base
evaluates instead (see the counterexample). -/
theorem c2_amended_nan_policy :
    ∀ s : String, badParse s = true → safe_eval_math s = none := by
  intro s h
  unfold badParse at h
  cases hp : pyParse s with
  | none => simp [safe_eval_math, hp]
  | some t =>
    rw [hp] at h
    obtain ⟨e, he⟩ := (badExpr_errors (8 * (s.length + 1))).1 t h
    simp [safe_eval_math, hp, he]

/-- Witness for C2 amended at the disallowed identifier `foo`. -/
theorem c2_amended_nan_policy_witness :
    badParse ("foo") = true ∧ safe_eval_math ("foo") = none :=
  ⟨by decide, c2_amended_nan_policy ("foo") (by decide)⟩

/-- C3 counterexample: on the input `MATHBLOCK0MATHBLOCK $x$` the
placeholder generated for the math span `$x$` is exactly the substring
`MATHBLOCK0MATHBLOCK` that already occurs naturally in the input — the
claim's invariant that placeholder tokens never collide with naturally
occurring input text is false.  The protected text then contains the
token twice, so restoration also rewrites the naturally occurring copy. -/
theorem c3_counterexample_collision :
    (protectBlocks ("MATHBLOCK0MATHBLOCK $x$")).2.1 = ["$x$"] ∧
    occursB (("MATHBLOCK0MATHBLOCK $x$").data) (mathTok 0) = true ∧
    countOccsAll ((protectBlocks ("MATHBLOCK0MATHBLOCK $x$")).1.data) (mathTok 0) = 2 := by
  decide

/-- C3 amended: placeholder tokens can collide with input text that
already contains token-shaped substrings, and spurious token occurrences
can arise (e.g. from digit-only gaps between two placeholders), so the
round trip holds under the precondition that the protected text is an
interleaving of clean chunks and the generated placeholders in which each
placeholder occurs exactly once, and that every restored replacement is a
boundary separator for every placeholder (`sepOKB`, true of the actual
replacements, which start and end with `$`/`\`/`<`/`>`).  Then restoring
all placeholders (math first, then code, as `convert_to_html` does)
eliminates every placeholder from the output and embeds every protected
span's replacement — in particular every protected math span's original
text — verbatim in the output. -/
theorem c3_amended_round_trip (text prot : String) (mbs cbs : List String)
    (cs ts : List (List Char))
    (hprot : protectBlocks text = (prot, mbs, cbs))
    (hlen : cs.length = ts.length + 1)
    (hinter : prot.data = interleave cs ts)
    (hperm : ts.Perm ((tokenPairs mbs cbs).map Prod.fst))
    (hone : ∀ p ∈ tokenPairs mbs cbs, countOccsAll prot.data p.1 = 1)
    (hsep : ∀ p ∈ tokenPairs mbs cbs, ∀ q ∈ tokenPairs mbs cbs,
      sepOKB p.2 q.1 = true) :
    (∀ p ∈ tokenPairs mbs cbs,
      countOccsAll (restoreBlocks prot mbs cbs).data p.1 = 0) ∧
    (∀ p ∈ tokenPairs mbs cbs, Occurs (restoreBlocks prot mbs cbs).data p.2) := by
  obtain ⟨_, m2, _, m4⟩ := foldRepl_engine (tokenPairs mbs cbs) [] [] cs ts
    prot.data hinter hlen hperm (tokenPairs_fst_ne_nil mbs cbs) hone hsep
    (fun t0 ht0 => absurd ht0 (List.not_mem_nil t0))
    (fun t0 ht0 => absurd ht0 (List.not_mem_nil t0))
    (fun p _ t0 ht0 => absurd ht0 (List.not_mem_nil t0))
    (fun rep hrep => absurd hrep (List.not_mem_nil rep))
  rw [restoreBlocks_eq_foldRepl]
  exact ⟨m2, m4⟩

/-- Witness for C3 amended on `hello $x$ world` followed by a fenced
`py` code block. -/
theorem c3_amended_round_trip_witness :
    (∀ p ∈ tokenPairs (["$x$"]) (["```py\ncode\n```"]),
      countOccsAll (restoreBlocks ("hello MATHBLOCK0MATHBLOCK world\nCODEBLOCK0CODEBLOCK")
        (["$x$"]) (["```py\ncode\n```"])).data p.1 = 0) ∧
    (∀ p ∈ tokenPairs (["$x$"]) (["```py\ncode\n```"]),
      Occurs (restoreBlocks ("hello MATHBLOCK0MATHBLOCK world\nCODEBLOCK0CODEBLOCK")
        (["$x$"]) (["```py\ncode\n```"])).data p.2) :=
  c3_amended_round_trip ("hello $x$ world\n```py\ncode\n```")
    ("hello MATHBLOCK0MATHBLOCK world\nCODEBLOCK0CODEBLOCK")
    (["$x$"]) (["```py\ncode\n```"])
    ([("hello ").data, (" world\n").data, ([] : List Char)])
    ([mathTok 0, codeTok 0])
    (by decide) (by decide) (by decide) (by decide) (by decide) (by decide)

/-- C4 counterexample: the claim says a math delimiter lying inside a
fenced code block is protected as code, not as math.  In the code,
`convert_to_html` extracts math blocks first (line 26) and code blocks
afterwards (line 27), so on ```` ```\n$x$\n``` ```` the inner `$x$` IS
captured as a math block. -/
theorem c4_counterexample_math_inside_fence :
    (protectBlocks ("```\n$x$\n```")).2.1 = ["$x$"] := by
  decide

/-- C4 amended: the protection step extracts the four math-delimiter
forms first and fenced code blocks afterwards; consequently a math
delimiter inside a fenced code block is protected as math, and the stored
code block contains the math placeholder instead of the original math
text (so the math placeholder is reinserted verbatim by the code
restoration, one way leftover placeholders can reach the output). -/
theorem c4_amended_math_extracted_first :
    protectBlocks ("```\n$x$\n```") =
      (("CODEBLOCK0CODEBLOCK"), ["$x$"], ["```\nMATHBLOCK0MATHBLOCK\n```"]) := by
  decide

/-- C5: on the plot command with `domain=0:1, samples=3` and expression
`\x^2`, the converter emits a segment-chain draw command with exactly the
three points `(0.0000,0.0000)`, `(0.5000,0.2500)`, `(1.0000,1.0000)`
(four decimal places), sampled at step `(max−min)/(N−1) = 0.5`, with the
`domain`/`samples` tokens stripped from the options. -/
theorem c5_three_sample_points :
    tikzPlotConvert ("\\draw[domain=0:1, samples=3] plot (\\x, \x7b\\x^2\x7d);") =
      "\\draw[] (0.0000,0.0000) -- (0.5000,0.2500) -- (1.0000,1.0000);" := by
  decide

/-- C6: for every matched plot drawing command whose options contain no
`domain=min:max` token (the regex search finds nothing), the converter
returns the full matched command text completely unmodified, raising
nothing (the model is total; the source logs a warning and returns). -/
theorem c6_missing_domain_unchanged (full opts xe ye : List Char)
    (h : searchDomain opts = none) :
    convertPlotCmd full opts xe ye = full := by
  simp [convertPlotCmd, parseDomain, h]

/-- Witness for C6 on a command with style options but no domain. -/
theorem c6_missing_domain_unchanged_witness :
    searchDomain (("red, thick").data) = none ∧
    convertPlotCmd (("\\draw[red, thick] plot (\\x, \x7b\\x\x7d);").data)
      (("red, thick").data) (("\\x").data) (("\\x").data) =
      ("\\draw[red, thick] plot (\\x, \x7b\\x\x7d);").data :=
  ⟨by decide, c6_missing_domain_unchanged _ _ _ _ (by decide)⟩

/-- C7 counterexample: `convert` is not idempotent on every input.  The
entity cleaning rewrites `&amp;amp;` to `&amp;`, and a second application
rewrites that to `&`, so applying `convert` twice differs from applying
it once. -/
theorem c7_counterexample_entity_double_encoding :
    tikzPlotConvert (tikzPlotConvert ("&amp;amp;")) ≠ tikzPlotConvert ("&amp;amp;") := by
  decide

/-- C7 amended: on every input containing none of the four HTML entities
and no match of the plot-command pattern, `convert` returns its input
unchanged — hence applying it twice equals applying it once there, and in
particular a pure coordinate-chain draw command (no `plot` keyword) passes
through as a no-op.  Unrestricted idempotence fails (see the
counterexample: entity cleaning is not idempotent on double-encoded
entities). -/
theorem c7_amended_identity_on_clean_input (s : String)
    (h1 : containsEntityB s.data = false) (h2 : noPlotMatchB s.data = true) :
    tikzPlotConvert s = s ∧
    tikzPlotConvert (tikzPlotConvert s) = tikzPlotConvert s := by
  have hclean : cleanHtmlEntitiesL s.data = s.data := clean_id_of_no_entity s.data h1
  have hsub : reSubG plotCmdMatcher s.data = s.data := noPlotMatch_reSubG_id s.data h2
  have hid : tikzPlotConvert s = s := by
    unfold tikzPlotConvert
    rw [hclean, hsub]
  exact ⟨hid, by rw [hid]; exact hid⟩

/-- Witness for C7 amended on a pure coordinate-chain draw command. -/
theorem c7_amended_identity_witness :
    containsEntityB (("\\draw[red] (0,0) -- (1,1);").data) = false ∧
    noPlotMatchB (("\\draw[red] (0,0) -- (1,1);").data) = true ∧
    tikzPlotConvert ("\\draw[red] (0,0) -- (1,1);") = "\\draw[red] (0,0) -- (1,1);" :=
  ⟨by decide, by decide,
    (c7_amended_identity_on_clean_input ("\\draw[red] (0,0) -- (1,1);")
      (by decide) (by decide)).1⟩

/-- C8 counterexample: on the spec's example input `\frac{1}{2} \lbrace`
the validator reports NO diagnostics at all: `\lbrace` contains no literal
brace character, so the brace counts are 2 and 2 (balanced), and the frac
has both arguments. -/
theorem c8_counterexample_lbrace_balanced :
    latexValidate ("\\frac\x7b1\x7d\x7b2\x7d \\lbrace") = ⟨true, []⟩ := by
  decide

/-- C8 amended: an input with an actual literal unbalanced brace,
`\frac{1}{2} {`, yields exactly one brace-imbalance diagnostic (3 opening
vs 2 closing braces, escaped braces excluded) and zero frac
diagnostics. -/
theorem c8_amended_literal_brace :
    latexValidate ("\\frac\x7b1\x7d\x7b2\x7d \x7b") = ⟨false, [braceMsg 3 2]⟩ ∧
    checkFrac (("\\frac\x7b1\x7d\x7b2\x7d \x7b").data) = [] := by
  decide

/-- C9: the converter first replaces the HTML entities throughout the
whole input; hence every input that contains one of the four entities but
contains no plot drawing command (no suffix of the cleaned text matches
the plot pattern) is changed by `convert` — cleaning strictly shortens the
text and the substitution pass then leaves it alone.  So `convert` is the
identity only on entity-free, plot-free text. -/
theorem c9_entity_cleaning_changes_text (s : String)
    (h1 : containsEntityB s.data = true)
    (h2 : noPlotMatchB (cleanHtmlEntitiesL s.data) = true) :
    tikzPlotConvert s ≠ s := by
  have hlen := clean_length_lt s.data h1
  have hsub := noPlotMatch_reSubG_id (cleanHtmlEntitiesL s.data) h2
  intro heq
  have hdata : (tikzPlotConvert s).data = cleanHtmlEntitiesL s.data := by
    show (String.mk (reSubG plotCmdMatcher (cleanHtmlEntitiesL s.data))).data = _
    rw [hsub]
  rw [heq] at hdata
  have := congrArg List.length hdata
  omega

/-- Witness for C9 on `a&lt;b`. -/
theorem c9_entity_cleaning_witness :
    containsEntityB (("a&lt;b").data) = true ∧
    noPlotMatchB (cleanHtmlEntitiesL (("a&lt;b").data)) = true ∧
    tikzPlotConvert ("a&lt;b") ≠ "a&lt;b" :=
  ⟨by decide, by decide,
    c9_entity_cleaning_changes_text ("a&lt;b") (by decide) (by decide)⟩

/-- C10: for every fenced mermaid block body that is non-empty after
stripping, the replacement is exactly `<pre class="mermaid">`, a newline,
the stripped body, a newline and `</pre>` — whatever diagram type
`_detect_diagram_type` classifies (the detected type `d` is universally
quantified and never influences the output). -/
theorem c10_mermaid_block_output (body d : String)
    (h1 : pyStrip body ≠ "") (h2 : detectDiagramType (pyStrip body) = d) :
    convertMermaidBlock body =
      "<pre class=\"mermaid\">\n" ++ pyStrip body ++ "\n</pre>" := by
  simp [convertMermaidBlock, h1]

/-- Witness for C10 on a `mindmap` block (detected type `mindmap`). -/
theorem c10_mermaid_block_output_witness :
    pyStrip ("mindmap\n  root") ≠ "" ∧
    detectDiagramType (pyStrip ("mindmap\n  root")) = "mindmap" ∧
    convertMermaidBlock ("mindmap\n  root") =
      "<pre class=\"mermaid\">\n" ++ pyStrip ("mindmap\n  root") ++ "\n</pre>" :=
  ⟨by decide, by decide,
    c10_mermaid_block_output ("mindmap\n  root") ("mindmap") (by decide) (by decide)⟩

end MathJax2Image
